import Mathlib

/-!
Verification development for the WebGraph interaction and state-history
subsystem (`src/WebGraph/index.ts`).  The graph store is the external
graphology multigraph the code consumes (spec section 6); node and edge
attribute bags are modelled as records of optional fields, and the store
as association lists keyed by opaque string keys.  The `History`,
`Configuration` and `appstate` modules of the repository are not part of
the provided sources; their definitions below are modelled from the spec
and marked as such.
-/

namespace Webgraph

/-- First-some merge of two optional values: models a field of a JS object
merge where a present field of the second object overrides the first. -/
def oMerge {α : Type} : Option α → Option α → Option α
  | some v, _ => some v
  | none, b => b

/-- Node attribute bag (spec section 3: position, visual attributes,
visibility flag, classification fields). Absent fields are `none`. -/
structure NodeAttrs where
  x : Option Int
  y : Option Int
  z : Option Int
  color : Option String
  size : Option Nat
  type : Option String
  label : Option String
  hidden : Option Bool
  category : Option Nat
  score : Option Nat
  important : Option Bool
  cluster : Option Nat
deriving DecidableEq, Repr

def emptyNodeAttrs : NodeAttrs :=
  ⟨none, none, none, none, none, none, none, none, none, none, none, none⟩

/-- JS shallow object merge of node attributes: fields of `n` override `o`. -/
def mergeNodeAttrs (o n : NodeAttrs) : NodeAttrs :=
  ⟨oMerge n.x o.x, oMerge n.y o.y, oMerge n.z o.z, oMerge n.color o.color,
   oMerge n.size o.size, oMerge n.type o.type, oMerge n.label o.label,
   oMerge n.hidden o.hidden, oMerge n.category o.category,
   oMerge n.score o.score, oMerge n.important o.important,
   oMerge n.cluster o.cluster⟩

/-- Edge attribute bag (spec section 3: weight, important, hidden). -/
structure EdgeAttrs where
  weight : Option Nat
  important : Option Bool
  hidden : Option Bool
  color : Option String
  z : Option Int
deriving DecidableEq, Repr

def emptyEdgeAttrs : EdgeAttrs := ⟨none, none, none, none, none⟩

def mergeEdgeAttrs (o n : EdgeAttrs) : EdgeAttrs :=
  ⟨oMerge n.weight o.weight, oMerge n.important o.important,
   oMerge n.hidden o.hidden, oMerge n.color o.color, oMerge n.z o.z⟩

/-- An edge record of the graph store: source, target and attributes. -/
structure EdgeRec where
  src : String
  tgt : String
  attrs : EdgeAttrs
deriving DecidableEq, Repr

/-- First-match lookup in an association list (the key-based lookup of the
external graph store). -/
def alookup {α : Type} : List (String × α) → String → Option α
  | [], _ => none
  | p :: ps, k => if p.1 = k then some p.2 else alookup ps k

/-- In-place update of the value stored under a key, the common shape of
the store's attribute-writing operations. -/
def replaceVal {α : Type} (k : String) (f : α → α) (p : String × α) : String × α :=
  if p.1 = k then (p.1, f p.2) else p

/-- The external graphology multigraph (spec sections 3 and 6): key-based
node and edge storage.  `nextEdgeId` feeds generated keys for keyless
edge merges. -/
structure Graph where
  nodes : List (String × NodeAttrs)
  edges : List (String × EdgeRec)
  nextEdgeId : Nat
deriving DecidableEq, Repr

namespace Graph

def hasNode (g : Graph) (k : String) : Bool := (alookup g.nodes k).isSome

def getNodeAttrs (g : Graph) (k : String) : NodeAttrs :=
  (alookup g.nodes k).getD emptyNodeAttrs

/-- graphology `mergeNode`: upsert, shallow-merging attributes into an
existing node or creating the node. -/
def mergeNode (g : Graph) (k : String) (a : NodeAttrs) : Graph :=
  if g.hasNode k then
    { g with nodes := g.nodes.map (replaceVal k (fun o => mergeNodeAttrs o a)) }
  else
    { g with nodes := g.nodes ++ [(k, a)] }

def hasEdgeKey (g : Graph) (k : String) : Bool := (alookup g.edges k).isSome

def getEdgeRec (g : Graph) (k : String) : EdgeRec :=
  (alookup g.edges k).getD ⟨"", "", emptyEdgeAttrs⟩

def edgeSource (g : Graph) (k : String) : String := (g.getEdgeRec k).src

def edgeTarget (g : Graph) (k : String) : String := (g.getEdgeRec k).tgt

def getEdgeAttrs (g : Graph) (k : String) : EdgeAttrs := (g.getEdgeRec k).attrs

/-- graphology `hasEdge(source, target)`. -/
def hasEdgeBetween (g : Graph) (s t : String) : Bool :=
  g.edges.any (fun p => p.2.src = s && p.2.tgt = t)

def incident (r : EdgeRec) (k : String) : Bool := r.src = k || r.tgt = k

/-- graphology `edges(node)`: keys of all edges incident to the node. -/
def incidentEdges (g : Graph) (k : String) : List String :=
  (g.edges.filter (fun p => incident p.2 k)).map Prod.fst

/-- graphology `edges(a, b)`: keys of the edges from `a` to `b`. -/
def edgesBetween (g : Graph) (a b : String) : List String :=
  (g.edges.filter (fun p => p.2.src = a && p.2.tgt = b)).map Prod.fst

/-- graphology `neighbors(node)`: the adjacent nodes, each listed once. -/
def neighbors (g : Graph) (k : String) : List String :=
  (((g.edges.filter (fun p => incident p.2 k)).map
      (fun p => if p.2.src = k then p.2.tgt else p.2.src))).dedup

/-- graphology `dropNode`: removes the node and every incident edge. -/
def dropNode (g : Graph) (k : String) : Graph :=
  { g with nodes := g.nodes.filter (fun p => p.1 != k),
           edges := g.edges.filter (fun p => !incident p.2 k) }

def addNodeIfAbsent (g : Graph) (k : String) : Graph :=
  if g.hasNode k then g else { g with nodes := g.nodes ++ [(k, emptyNodeAttrs)] }

/-- graphology `mergeEdgeWithKey`: upsert by edge key, creating missing
endpoint nodes. -/
def mergeEdgeWithKey (g : Graph) (k s t : String) (a : Option EdgeAttrs) : Graph :=
  if g.hasEdgeKey k then
    { g with edges := g.edges.map (replaceVal k (fun r =>
        ⟨r.src, r.tgt, mergeEdgeAttrs r.attrs (a.getD emptyEdgeAttrs)⟩)) }
  else
    let g2 := (g.addNodeIfAbsent s).addNodeIfAbsent t
    { g2 with edges := g2.edges ++ [(k, ⟨s, t, a.getD emptyEdgeAttrs⟩)] }

/-- graphology `mergeEdge` (no key): upsert by the source and target pair,
generating a key when the edge is created. -/
def mergeEdge (g : Graph) (s t : String) (a : Option EdgeAttrs) : Graph :=
  match g.edges.find? (fun p => p.2.src = s && p.2.tgt = t) with
  | some p =>
    { g with edges := g.edges.map (replaceVal p.1 (fun r =>
        ⟨r.src, r.tgt, mergeEdgeAttrs r.attrs (a.getD emptyEdgeAttrs)⟩)) }
  | none =>
    let g2 := (g.addNodeIfAbsent s).addNodeIfAbsent t
    { g2 with edges := g2.edges ++ [("geid_" ++ toString g.nextEdgeId, ⟨s, t, a.getD emptyEdgeAttrs⟩)],
              nextEdgeId := g.nextEdgeId + 1 }

/-- graphology `setEdgeAttribute(edge, hidden, b)`. -/
def setEdgeHidden (g : Graph) (k : String) (b : Bool) : Graph :=
  { g with edges := g.edges.map (replaceVal k (fun r =>
      ⟨r.src, r.tgt, { r.attrs with hidden := some b }⟩)) }

/-- graphology `clearEdges`. -/
def clearEdges (g : Graph) : Graph := { g with edges := [] }

end Graph

/-- Modelled from the spec: the activation state enum of the missing
`appstate` module (spec section 3). -/
inductive AppState
  | inactive
  | active
deriving DecidableEq, Repr

/-- Modelled from the spec: the app mode of the missing `Configuration`
module, STATIC or DYNAMIC (spec sections 3 and 4.2). -/
inductive AppMode
  | staticMode
  | dynamicMode
deriving DecidableEq, Repr

/-- A `SerializedNode` of the external graph library: a key plus an
optional attribute bag. -/
structure SNode where
  key : String
  attrs : Option NodeAttrs
deriving DecidableEq, Repr

/-- A `SerializedEdge`: an optional key, the endpoints and an optional
attribute bag. -/
structure SEdgeSer where
  key : Option String
  src : String
  tgt : String
  attrs : Option EdgeAttrs
deriving DecidableEq, Repr

/-- Modelled from the spec: the `ActionType` enum of the missing `History`
module; one constructor per mutation kind dispatched in undo and redo
(spec sections 3 and 4.3). -/
inductive ActionType
  | updateAppMode
  | updateOrAddNode
  | dropNode
  | updateNodeType
  | replaceEdges
  | updateOrAddEdge
  | toggleEdgeRendering
  | toggleImportantEdgeRendering
  | setLayout
deriving DecidableEq, Repr

/-- Modelled from the spec: a heterogeneous history payload bag, keyed by
the mutation kind (spec section 3).  An absent (JS `undefined`) field is
`none`; the dedicated `toggleEdgeRendering` field itself stores the
possibly-undefined boolean argument of a toggle call. -/
structure Payload where
  nodes : Option (List SNode)
  edges : Option (List SEdgeSer)
  appMode : Option AppMode
  nodeType : Option String
  toggleEdgeRendering : Option Bool
  layoutMapping : Option (List (String × Int × Int))
deriving DecidableEq, Repr

def emptyPayload : Payload := ⟨none, none, none, none, none, none⟩

/-- Modelled from the spec: a history action record
`oldData / actionType / newData / reverted` (spec section 3). -/
structure HistoryAction where
  oldData : Payload
  actionType : ActionType
  newData : Payload
  reverted : Bool
deriving DecidableEq, Repr

/-- Modelled from the spec: the history log of the missing `History`
module, an append-only sequence of actions, newest first. -/
abbrev HistoryLog : Type := List HistoryAction

/-- Modelled from the spec: `HistoryManager.addAction` appends a fresh,
non-reverted action to the log. -/
def addAction (h : HistoryLog) (old : Payload) (t : ActionType) (new : Payload) : HistoryLog :=
  (⟨old, t, new, false⟩ : HistoryAction) :: h

/-- Modelled from the spec: `HistoryManager.getLatestAction` returns the
most recent action not marked reverted (spec section 4.3). -/
def getLatestAction (h : HistoryLog) : Option HistoryAction :=
  h.find? (fun a => !a.reverted)

/-- Modelled from the spec: `HistoryManager.getLatestRevertedAction`
returns the most recent action marked reverted (spec section 4.3). -/
def getLatestRevertedAction (h : HistoryLog) : Option HistoryAction :=
  h.find? (fun a => a.reverted)

/-- Modelled from the spec: marks the most recent non-reverted action as
reverted. -/
def markLatestActionAsReverted : HistoryLog → HistoryLog
  | [] => []
  | a :: rest =>
    if a.reverted then a :: markLatestActionAsReverted rest
    else { a with reverted := true } :: rest

/-- Modelled from the spec: marks the most recent reverted action as not
reverted. -/
def markLatestRevertedActionAsNotReverted : HistoryLog → HistoryLog
  | [] => []
  | a :: rest =>
    if a.reverted then { a with reverted := false } :: rest
    else a :: markLatestRevertedActionAsNotReverted rest

/-- The renderer settings the widget reads and writes
(`hideEdges`, `renderJustImportantEdges`, `renderNodeBackdrop`); the
renderer itself is an external black box (spec section 6). -/
structure RenderSettings where
  hideEdges : Bool
  renderJustImportantEdges : Bool
  renderNodeBackdrop : Bool
  defaultNodeType : Option String
deriving DecidableEq, Repr

/-- Modelled from the spec: the slice of the missing `Configuration`
module that the interaction core reads (spec sections 4.2 and 4.4). -/
structure Config where
  enableHistory : Bool
  appMode : AppMode
  defaultNodeType : Option String
  includeImportantNeighbors : Bool
  importantNeighborsBidirectional : Bool
  highlightSubGraphOnHover : Bool
  hasNodeInfoBox : Bool
  sigmaSettings : RenderSettings
deriving DecidableEq, Repr

/-- The full state of one `WebGraph` instance: the caller-owned graph,
configuration, activation state, optional renderer, highlight sets,
hovered node, history, and the mirrored toggle flags
(`src/WebGraph/index.ts` lines 62 to 76). -/
structure WG where
  graphData : Graph
  configuration : Config
  appState : AppState
  renderer : Option RenderSettings
  highlightedNodes : List String
  highlightedEdges : List String
  hoveredNode : Option String
  isNodeInfoBoxContainerVisible : Bool
  isHistoryEnabled : Bool
  history : Option HistoryLog
  isEdgeRenderingDisabled : Bool
  isJustImportantEdgesEnabled : Bool
  isNodeBackdropRenderingEnabled : Bool
deriving DecidableEq, Repr

namespace WG

/-- `isRenderingActive` getter (`index.ts` line 143). -/
def isRenderingActive (s : WG) : Bool :=
  match s.appState with
  | .active => true
  | .inactive => false

/-- JS `Set.add`: appends the key when absent, in insertion order. -/
def listInsert (l : List String) (k : String) : List String :=
  if l.contains k then l else l ++ [k]

/-- `hideNodeInfoBoxContainer` (`index.ts` lines 1197 to 1212), restricted
to its effect on the widget state. -/
def hideInfoBox (s : WG) : WG :=
  if !s.isNodeInfoBoxContainerVisible then s
  else if s.hoveredNode.isSome then s
  else if !s.configuration.hasNodeInfoBox then s
  else { s with isNodeInfoBoxContainerVisible := false }

/-- The per-node loop of `mergeNodes` (`index.ts` lines 429 to 445):
snapshots a pre-existing node before upserting it, accumulating the
`existingNodes` history payload. -/
def mergeNodesCore (hOn : Bool) (g : Graph) (ex : List SNode) :
    List SNode → Graph × List SNode
  | [] => (g, ex)
  | n :: rest =>
    let ex2 := if hOn && g.hasNode n.key then
        ex ++ [⟨n.key, some (g.getNodeAttrs n.key)⟩] else ex
    mergeNodesCore hOn (g.mergeNode n.key (n.attrs.getD emptyNodeAttrs)) ex2 rest

/-- Inner loop of the replay un-hide (`index.ts` lines 463 to 467): sets
`hidden := false` on every edge incident to the node. -/
def unhideEdgesOf (g : Graph) (k : String) : Graph :=
  (g.incidentEdges k).foldl (fun g2 e => g2.setEdgeHidden e false) g

/-- Outer loop of the replay un-hide (`index.ts` lines 462 to 468). -/
def unhideAll (g : Graph) : List SNode → Graph
  | [] => g
  | n :: rest => unhideAll (unhideEdgesOf g n.key) rest

/-- `mergeNodes` (`index.ts` lines 421 to 471). -/
def mergeNodes (nodes : List SNode) (addToHistory : Bool) (s : WG) : Bool × WG :=
  if nodes.length ≤ 0 then (false, s)
  else
    let hOn := s.isHistoryEnabled && addToHistory
    let res := mergeNodesCore hOn s.graphData [] nodes
    let s1 := { s with graphData := res.1 }
    let s2 := if hOn then
        { s1 with history := s1.history.map (fun h =>
            addAction h { emptyPayload with nodes := some res.2 }
              .updateOrAddNode { emptyPayload with nodes := some nodes }) }
      else s1
    let s3 := if !addToHistory then { s2 with graphData := unhideAll s2.graphData nodes } else s2
    (true, s3)

/-- A `dropNodes` input: a node key or a whole serialized node
(`index.ts` line 484). -/
inductive DropInput
  | key (k : String)
  | node (n : SNode)
deriving DecidableEq, Repr

/-- The key used for existence checks and dropping
(`index.ts` lines 491 to 494). -/
def DropInput.keyOf : DropInput → String
  | .key k => k
  | .node n => n.key

/-- `node.toString()` as used for the history record key
(`index.ts` line 525): a JS object stringifies to `[object Object]`. -/
def DropInput.toStr : DropInput → String
  | .key k => k
  | .node _ => "[object Object]"

/-- One iteration of the `dropNodes` loop (`index.ts` lines 490 to 532):
skip missing keys, prune the highlight sets, snapshot the incident edges
and the node, hide the info box, then drop the node. -/
def dropOne (hOn : Bool) (acc : WG × List SNode × List SEdgeSer) (inp : DropInput) :
    WG × List SNode × List SEdgeSer :=
  if !acc.1.graphData.hasNode inp.keyOf then acc
  else
    let s := acc.1
    let k := inp.keyOf
    let es := s.graphData.incidentEdges k
    let s1 := { s with
      highlightedNodes := s.highlightedNodes.filter (fun n => n != k),
      highlightedEdges := s.highlightedEdges.filter (fun e => !es.contains e) }
    let edgeH2 := if hOn then
        acc.2.2 ++ es.map (fun e =>
          (⟨some e, s.graphData.edgeSource e, s.graphData.edgeTarget e,
            some (s.graphData.getEdgeAttrs e)⟩ : SEdgeSer))
      else acc.2.2
    let s2 := hideInfoBox s1
    let nodH2 := if hOn then
        acc.2.1 ++ [(⟨inp.toStr, some (s2.graphData.getNodeAttrs k)⟩ : SNode)]
      else acc.2.1
    ({ s2 with graphData := s2.graphData.dropNode k }, nodH2, edgeH2)

def dropCore (hOn : Bool) (acc : WG × List SNode × List SEdgeSer) :
    List DropInput → WG × List SNode × List SEdgeSer
  | [] => acc
  | i :: rest => dropCore hOn (dropOne hOn acc i) rest

/-- `dropNodes` (`index.ts` lines 483 to 550). -/
def dropNodes (inputs : List DropInput) (addToHistory : Bool) (s : WG) : Bool × WG :=
  let hOn := s.isHistoryEnabled && addToHistory
  let res := dropCore hOn (s, [], []) inputs
  let s1 := res.1
  let s2 := if hOn then
      { s1 with history := s1.history.map (fun h =>
          addAction h
            { emptyPayload with nodes := some res.2.1, edges := some res.2.2 }
            .dropNode emptyPayload) }
    else s1
  (true, s2)

/-- The per-edge loop of `mergeEdges` (`index.ts` lines 253 to 281). -/
def mergeEdgesCore (hOn : Bool) (g : Graph) (ex : List SEdgeSer) :
    List SEdgeSer → Graph × List SEdgeSer
  | [] => (g, ex)
  | e :: rest =>
    let ex2 := if hOn && g.hasEdgeBetween e.src e.tgt then
        ex ++ [⟨e.key, e.src, e.tgt, e.key.map (fun k => g.getEdgeAttrs k)⟩]
      else ex
    let g2 := match e.key with
      | some k => g.mergeEdgeWithKey k e.src e.tgt e.attrs
      | none => g.mergeEdge e.src e.tgt e.attrs
    mergeEdgesCore hOn g2 ex2 rest

/-- `mergeEdges` (`index.ts` lines 248 to 296). -/
def mergeEdges (edges : List SEdgeSer) (addToHistory : Bool) (s : WG) : Bool × WG :=
  if edges.length ≤ 0 then (false, s)
  else
    let hOn := s.isHistoryEnabled && addToHistory
    let res := mergeEdgesCore hOn s.graphData [] edges
    let s1 := { s with graphData := res.1 }
    let s2 := if hOn then
        { s1 with history := s1.history.map (fun h =>
            addAction h { emptyPayload with edges := some res.2 }
              .updateOrAddEdge { emptyPayload with edges := some edges }) }
      else s1
    (true, s2)

/-- `replaceEdges` (`index.ts` lines 309 to 339): snapshot everything,
clear the edge set, then delegate to `mergeEdges` without re-recording. -/
def replaceEdges (edges : List SEdgeSer) (addToHistory : Bool) (s : WG) : Bool × WG :=
  let hOn := s.isHistoryEnabled && addToHistory
  let s1 := if hOn then
      let ex := s.graphData.edges.map (fun p =>
        (⟨some p.1, p.2.src, p.2.tgt, some p.2.attrs⟩ : SEdgeSer))
      { s with history := s.history.map (fun h =>
          addAction h { emptyPayload with edges := some ex }
            .replaceEdges { emptyPayload with edges := some edges }) }
    else s
  let s2 := { s1 with graphData := s1.graphData.clearEdges }
  (true, (mergeEdges edges false s2).2)

/-- `toggleEdgeRendering` (`index.ts` lines 349 to 371): tri-state, and
the visual effect is delegated to the renderer settings. -/
def toggleEdgeRendering (hideEdges : Option Bool) (addToHistory : Bool) (s : WG) : WG :=
  let oldValue := s.isEdgeRenderingDisabled
  let s1 := match hideEdges with
    | some b =>
      { s with isEdgeRenderingDisabled := b,
               renderer := s.renderer.map (fun r => { r with hideEdges := b }) }
    | none =>
      let nv := !s.isEdgeRenderingDisabled
      { s with isEdgeRenderingDisabled := nv,
               renderer := s.renderer.map (fun r => { r with hideEdges := nv }) }
  if s1.isHistoryEnabled && addToHistory then
    { s1 with history := s1.history.map (fun h =>
        addAction h { emptyPayload with toggleEdgeRendering := some oldValue }
          .toggleEdgeRendering { emptyPayload with toggleEdgeRendering := hideEdges }) }
  else s1

/-- `toggleJustImportantEdgeRendering` (`index.ts` lines 381 to 408).
Note line 395: the forced `toggleEdgeRendering(false)` sub-call is made
with `addToHistory` left at its default `true`. -/
def toggleJustImportantEdgeRendering (renderJustImportant : Option Bool)
    (addToHistory : Bool) (s : WG) : WG :=
  let oldValue := s.isJustImportantEdgesEnabled
  let s1 := match renderJustImportant with
    | some b =>
      { s with isJustImportantEdgesEnabled := b,
               renderer := s.renderer.map (fun r => { r with renderJustImportantEdges := b }) }
    | none =>
      let nv := !s.isJustImportantEdgesEnabled
      { s with isJustImportantEdgesEnabled := nv,
               renderer := s.renderer.map (fun r => { r with renderJustImportantEdges := nv }) }
  let s2 := toggleEdgeRendering (some false) true s1
  if s2.isHistoryEnabled && addToHistory then
    { s2 with history := s2.history.map (fun h =>
        addAction h { emptyPayload with toggleEdgeRendering := some oldValue }
          .toggleImportantEdgeRendering
          { emptyPayload with toggleEdgeRendering := renderJustImportant }) }
  else s2

/-- `setAndApplyDefaultNodeType` (`index.ts` lines 616 to 639). -/
def setAndApplyDefaultNodeType (nodeType : String) (addToHistory : Bool) (s : WG) :
    Bool × WG :=
  match s.renderer with
  | none => (false, s)
  | some r =>
    let oldType := s.configuration.defaultNodeType
    let s1 := { s with
      configuration := { s.configuration with
        defaultNodeType := some nodeType,
        sigmaSettings := { s.configuration.sigmaSettings with defaultNodeType := some nodeType } },
      renderer := some { r with defaultNodeType := some nodeType } }
    let s2 := if s1.isHistoryEnabled && addToHistory then
        { s1 with history := s1.history.map (fun h =>
            addAction h { emptyPayload with nodeType := oldType }
              .updateNodeType { emptyPayload with nodeType := some nodeType }) }
      else s1
    (true, s2)

/-- The `appMode` setter (`index.ts` lines 165 to 181). -/
def setAppMode (m : AppMode) (s : WG) : WG :=
  let oldMode := s.configuration.appMode
  let s1 := { s with configuration := { s.configuration with appMode := m } }
  if s1.isHistoryEnabled then
    { s1 with history := s1.history.map (fun h =>
        addAction h { emptyPayload with appMode := some oldMode }
          .updateAppMode { emptyPayload with appMode := some m }) }
  else s1

/-- The eventual effect of `animateGraph` (`index.ts` lines 987 to 999):
every node named by the mapping is moved to the mapped position. -/
def applyMapping (g : Graph) : List (String × Int × Int) → Graph
  | [] => g
  | p :: rest =>
    let g2 := if g.hasNode p.1 then
        { g with nodes := g.nodes.map (replaceVal p.1 (fun na =>
            { na with x := some p.2.1, y := some p.2.2 })) }
      else g
    applyMapping g2 rest

/-- The body of one `undo` switch case (`index.ts` lines 715 to 789):
`none` models an early `return false` on a missing payload field, and
all guards run before any mutation. -/
def undoStep (s : WG) (a : HistoryAction) : Option WG :=
  match a.actionType with
  | .updateAppMode =>
    a.oldData.appMode.map (fun m =>
      { s with configuration := { s.configuration with appMode := m } })
  | .updateOrAddNode =>
    match a.oldData.nodes, a.newData.nodes with
    | some oldNs, some newNs =>
      let s1 := (dropNodes (newNs.map DropInput.node) false s).2
      some (mergeNodes oldNs false s1).2
    | _, _ => none
  | .dropNode =>
    match a.oldData.nodes, a.oldData.edges with
    | some ns, some es =>
      let s1 := (mergeNodes ns false s).2
      some (mergeEdges es false s1).2
    | _, _ => none
  | .updateNodeType =>
    a.oldData.nodeType.map (fun t => (setAndApplyDefaultNodeType t false s).2)
  | .replaceEdges =>
    a.oldData.edges.map (fun es => (replaceEdges es false s).2)
  | .updateOrAddEdge =>
    a.oldData.edges.map (fun es => (replaceEdges es false s).2)
  | .toggleEdgeRendering =>
    a.oldData.toggleEdgeRendering.map (fun b => toggleEdgeRendering (some b) false s)
  | .toggleImportantEdgeRendering =>
    a.oldData.toggleEdgeRendering.map (fun b =>
      toggleJustImportantEdgeRendering (some b) false s)
  | .setLayout =>
    a.oldData.layoutMapping.map (fun m => { s with graphData := applyMapping s.graphData m })

/-- `undo` (`index.ts` lines 699 to 793). -/
def undo (s : WG) : Except String (Bool × WG) :=
  if s.renderer.isNone || !s.isRenderingActive then
    .error "rendering inactive"
  else if !s.isHistoryEnabled then
    .error "history disabled"
  else
    match s.history.bind getLatestAction with
    | none => .ok (false, s)
    | some a =>
      match undoStep s a with
      | none => .ok (false, s)
      | some s2 => .ok (true, { s2 with history := s2.history.map markLatestActionAsReverted })

/-- The body of one `redo` switch case (`index.ts` lines 825 to 888). -/
def redoStep (s : WG) (a : HistoryAction) : Option WG :=
  match a.actionType with
  | .updateAppMode =>
    a.newData.appMode.map (fun m =>
      { s with configuration := { s.configuration with appMode := m } })
  | .updateOrAddNode =>
    a.newData.nodes.map (fun ns => (mergeNodes ns false s).2)
  | .dropNode =>
    a.oldData.nodes.map (fun ns => (dropNodes (ns.map DropInput.node) false s).2)
  | .updateNodeType =>
    a.newData.nodeType.map (fun t => (setAndApplyDefaultNodeType t false s).2)
  | .replaceEdges =>
    a.newData.edges.map (fun es => (replaceEdges es false s).2)
  | .updateOrAddEdge =>
    a.newData.edges.map (fun es => (mergeEdges es false s).2)
  | .toggleEdgeRendering =>
    a.newData.toggleEdgeRendering.map (fun b => toggleEdgeRendering (some b) false s)
  | .toggleImportantEdgeRendering =>
    a.newData.toggleEdgeRendering.map (fun b =>
      toggleJustImportantEdgeRendering (some b) false s)
  | .setLayout =>
    a.newData.layoutMapping.map (fun m => { s with graphData := applyMapping s.graphData m })

/-- `redo` (`index.ts` lines 809 to 892). -/
def redo (s : WG) : Except String (Bool × WG) :=
  if s.renderer.isNone || !s.isRenderingActive then
    .error "rendering inactive"
  else if !s.isHistoryEnabled then
    .error "history disabled"
  else
    match s.history.bind getLatestRevertedAction with
    | none => .ok (false, s)
    | some a =>
      match redoStep s a with
      | none => .ok (false, s)
      | some s2 =>
        .ok (true, { s2 with history := s2.history.map markLatestRevertedActionAsNotReverted })

/-- `render` (`index.ts` lines 195 to 219): throws when already active,
builds the renderer from the sigma settings, initializes history when
enabled, and mirrors the renderer toggle flags. -/
def render (s : WG) : Except String WG :=
  if s.isRenderingActive then .error "already rendering"
  else
    let st := s.configuration.sigmaSettings
    let s1 := { s with appState := AppState.active, renderer := some st,
                       isHistoryEnabled := s.configuration.enableHistory }
    let s2 := if s1.isHistoryEnabled then { s1 with history := some [] } else s1
    .ok { s2 with isEdgeRenderingDisabled := st.hideEdges,
                  isJustImportantEdgesEnabled := st.renderJustImportantEdges,
                  isNodeBackdropRenderingEnabled := st.renderNodeBackdrop }

/-- `destroy` (`index.ts` lines 911 to 926): tears the renderer down,
goes INACTIVE, clears the highlight sets, the hovered node and the
history.  It has no guard and no throwing path. -/
def destroy (s : WG) : WG :=
  { s with renderer := none, appState := AppState.inactive,
           highlightedNodes := [], highlightedEdges := [],
           hoveredNode := none, history := none }

/-- `clearHistory` (`index.ts` lines 899 to 904). -/
def clearHistory (s : WG) : Bool × WG := (true, { s with history := some [] })

/-- `exportGraph` (`index.ts` lines 937 to 943): with `excludeEdges` it
clears the edges of the live graph before exporting it. -/
def exportGraph (excludeEdges : Bool) (s : WG) : Graph × WG :=
  let s1 := if excludeEdges then { s with graphData := s.graphData.clearEdges } else s
  (s1.graphData, s1)

/-- The important-edges loop of `highlightSubgraphOfNode`
(`index.ts` lines 1672 to 1683): highlight the edges carrying
`important === true` and report whether at least one was found. -/
def impEdgeLoop (g : Graph) (hE : List String) (vis : Bool) :
    List String → List String × Bool
  | [] => (hE, vis)
  | e :: rest =>
    if (g.getEdgeAttrs e).important = some true then
      impEdgeLoop g (listInsert hE e) true rest
    else impEdgeLoop g hE vis rest

/-- The neighbor-of-neighbor edge loop (`index.ts` lines 1730 to 1740 and
1748 to 1758): skip an unimportant edge only when the renderer renders
just important edges. -/
def nnEdgeLoop (rji : Bool) (g : Graph) (hE : List String) (vis : Bool) :
    List String → List String × Bool
  | [] => (hE, vis)
  | e :: rest =>
    if rji && ((g.getEdgeAttrs e).important = some false : Bool) then
      nnEdgeLoop rji g hE vis rest
    else nnEdgeLoop rji g (listInsert hE e) true rest

/-- Processing of one important neighbor-of-neighbor
(`index.ts` lines 1721 to 1764). -/
def processNN (bidir rji : Bool) (g : Graph) (nb : String)
    (acc : List String × List String) (nin : String) : List String × List String :=
  let r1 := nnEdgeLoop rji g acc.2 false (g.edgesBetween nb nin)
  let r2 := if bidir then nnEdgeLoop rji g r1.1 r1.2 (g.edgesBetween nin nb) else r1
  (if r2.2 then listInsert acc.1 nin else acc.1, r2.1)

/-- Processing of one direct neighbor of the hovered node
(`index.ts` lines 1662 to 1765). -/
def processNeighbor (justImp : Bool) (cfg : Config) (rji : Bool) (g : Graph)
    (node : String) (acc : List String × List String) (nb : String) :
    List String × List String :=
  if (g.getNodeAttrs nb).hidden = some true then acc
  else
    let step :=
      if justImp then
        let r1 := impEdgeLoop g acc.2 false (g.edgesBetween node nb)
        let r2 := impEdgeLoop g r1.1 r1.2 (g.edgesBetween nb node)
        ((if r2.2 then listInsert acc.1 nb else acc.1), r2.1, r2.2)
      else
        let hE1 := (g.edgesBetween node nb).foldl listInsert acc.2
        let hE2 := (g.edgesBetween nb node).foldl listInsert hE1
        (listInsert acc.1 nb, hE2, true)
    let impNN := if step.2.2 && cfg.includeImportantNeighbors then
        (g.neighbors nb).filter (fun nn =>
          ((g.getNodeAttrs nn).important = some true : Bool) &&
          !((g.getNodeAttrs nn).hidden = some true : Bool))
      else []
    impNN.foldl (processNN cfg.importantNeighborsBidirectional rji g nb)
      (step.1, step.2.1)

/-- `highlightSubgraphOfNode` (`index.ts` lines 1659 to 1766). -/
def highlightSubgraphOfNode (node : String) (s : WG) : WG :=
  let g := s.graphData
  let rji := match s.renderer with
    | some r => r.renderJustImportantEdges
    | none => false
  let res := (g.neighbors node).foldl
    (processNeighbor s.isJustImportantEdgesEnabled s.configuration rji g node)
    (s.highlightedNodes, s.highlightedEdges)
  { s with highlightedNodes := res.1, highlightedEdges := res.2 }

/-- The `enterNode` hover handler (`index.ts` lines 1606 to 1622),
installed when `highlightSubGraphOnHover` is enabled: records the hovered
node, highlights its subgraph when edges are rendered and the node is not
hidden, then always adds the hovered node itself. -/
def onEnterNode (node : String) (s : WG) : WG :=
  let s1 := { s with hoveredNode := some node }
  let s2 := if !s1.isEdgeRenderingDisabled &&
      !((s1.graphData.getNodeAttrs node).hidden = some true : Bool) then
      highlightSubgraphOfNode node s1
    else s1
  { s2 with highlightedNodes := listInsert s2.highlightedNodes node }

end WG

end Webgraph

open Webgraph Webgraph.WG

/-- Default renderer settings for the concrete scenarios. -/
def baseSettings : RenderSettings := ⟨false, false, false, none⟩

/-- A configuration with history enabled and hover highlighting on. -/
def baseConfig : Config :=
  ⟨true, AppMode.dynamicMode, none, false, false, true, false, baseSettings⟩

def emptyG : Graph := ⟨[], [], 0⟩

/-- A freshly constructed widget: INACTIVE, no renderer, no history
(`index.ts` constructor, lines 115 to 134). -/
def baseWG : WG :=
  ⟨emptyG, baseConfig, AppState.inactive, none, [], [], none, false, false, none,
   false, false, false⟩

/-- The widget right after a successful `render` of `baseWG`. -/
def renderedWG : WG := ((render baseWG).toOption).getD baseWG

/-- The payload guards of the `undo` switch (`index.ts` lines 715 to 789):
`undo` replays an eligible action only when the payload fields its type
needs are present. -/
def undoPayloadOk (a : HistoryAction) : Bool :=
  match a.actionType with
  | .updateAppMode => a.oldData.appMode.isSome
  | .updateOrAddNode => a.oldData.nodes.isSome && a.newData.nodes.isSome
  | .dropNode => a.oldData.nodes.isSome && a.oldData.edges.isSome
  | .updateNodeType => a.oldData.nodeType.isSome
  | .replaceEdges => a.oldData.edges.isSome
  | .updateOrAddEdge => a.oldData.edges.isSome
  | .toggleEdgeRendering => a.oldData.toggleEdgeRendering.isSome
  | .toggleImportantEdgeRendering => a.oldData.toggleEdgeRendering.isSome
  | .setLayout => a.oldData.layoutMapping.isSome

/-- The payload guards of the `redo` switch (`index.ts` lines 825 to 888). -/
def redoPayloadOk (a : HistoryAction) : Bool :=
  match a.actionType with
  | .updateAppMode => a.newData.appMode.isSome
  | .updateOrAddNode => a.newData.nodes.isSome
  | .dropNode => a.oldData.nodes.isSome
  | .updateNodeType => a.newData.nodeType.isSome
  | .replaceEdges => a.newData.edges.isSome
  | .updateOrAddEdge => a.newData.edges.isSome
  | .toggleEdgeRendering => a.newData.toggleEdgeRendering.isSome
  | .toggleImportantEdgeRendering => a.newData.toggleEdgeRendering.isSome
  | .setLayout => a.newData.layoutMapping.isSome

/-- The widget after rendering a fresh history-enabled widget and calling
`toggleEdgeRendering()` with no argument. -/
def c4afterToggle : WG := toggleEdgeRendering none true renderedWG

/-- The widget after undoing that no-argument toggle. -/
def c4afterUndo : WG :=
  match undo c4afterToggle with
  | .ok p => p.2
  | .error _ => c4afterToggle

/-- The claim's predicate: at least one edge between the two nodes, in
either direction, carries `important = true`. -/
def hasImportantEdgeBetween (g : Graph) (a b : String) : Bool :=
  (g.edgesBetween a b ++ g.edgesBetween b a).any
    (fun e => decide ((g.getEdgeAttrs e).important = some true))

/-- The three-node graph of the C5 scenarios: H connected to Y by an
important edge, Y to X by an important edge, X back to H by an
unimportant edge, with X carrying the `important` node attribute. -/
def c5Graph : Graph :=
  ⟨[("H", emptyNodeAttrs), ("Y", emptyNodeAttrs),
    ("X", { emptyNodeAttrs with important := some true })],
   [("e1", ⟨"H", "Y", { emptyEdgeAttrs with important := some true }⟩),
    ("e2", ⟨"Y", "X", { emptyEdgeAttrs with important := some true }⟩),
    ("e3", ⟨"X", "H", { emptyEdgeAttrs with important := some false }⟩)], 0⟩

/-- A rendered widget in important-only mode with
include-important-neighbors enabled, on the C5 graph. -/
def c5State : WG :=
  { renderedWG with
    graphData := c5Graph,
    configuration := { baseConfig with includeImportantNeighbors := true },
    renderer := some { baseSettings with renderJustImportantEdges := true },
    isJustImportantEdgesEnabled := true }

/-- A rendered widget in important-only mode with
include-important-neighbors disabled, on the C5 graph. -/
def c5aState : WG :=
  { renderedWG with
    graphData := c5Graph,
    renderer := some { baseSettings with renderJustImportantEdges := true },
    isJustImportantEdgesEnabled := true }

/-- The state left behind by an `undo` call, or the input state when the
call throws. -/
def undoState (s : WG) : WG :=
  match undo s with
  | .ok p => p.2
  | .error _ => s

/-- The two-node graph of the C1 and C2 scenarios: an edge e1 from n1 to
n2 carrying a `hidden = true` attribute. -/
def c1Graph : Graph :=
  ⟨[("n1", emptyNodeAttrs), ("n2", { emptyNodeAttrs with color := some "red" })],
   [("e1", ⟨"n1", "n2", { emptyEdgeAttrs with hidden := some true, weight := some 3 }⟩)], 0⟩

/-- A rendered history-enabled widget on the C1 graph. -/
def c1State : WG := { renderedWG with graphData := c1Graph }

/-! ## Shape lemmas: which state fields each operation can touch -/

theorem hideInfoBox_shape (s : WG) :
    ∃ b, hideInfoBox s = { s with isNodeInfoBoxContainerVisible := b } := by
  unfold hideInfoBox
  split
  · exact ⟨s.isNodeInfoBoxContainerVisible, rfl⟩
  · split
    · exact ⟨s.isNodeInfoBoxContainerVisible, rfl⟩
    · split
      · exact ⟨s.isNodeInfoBoxContainerVisible, rfl⟩
      · exact ⟨false, rfl⟩

theorem mergeNodes_shape (ns : List SNode) (a : Bool) (s : WG) :
    ∃ b g hh, mergeNodes ns a s = (b, { s with graphData := g, history := hh }) := by
  unfold mergeNodes
  split
  · exact ⟨false, s.graphData, s.history, rfl⟩
  · dsimp only
    split
    · split
      · exact ⟨true, _, _, rfl⟩
      · exact ⟨true, _, _, rfl⟩
    · split
      · exact ⟨true, _, _, rfl⟩
      · exact ⟨true, _, _, rfl⟩

theorem dropOne_shape (hOn : Bool) (acc : WG × List SNode × List SEdgeSer) (i : DropInput) :
    ∃ g hN hE b nh eh, dropOne hOn acc i =
      ({ acc.1 with graphData := g, highlightedNodes := hN, highlightedEdges := hE,
                    isNodeInfoBoxContainerVisible := b }, nh, eh) := by
  unfold dropOne
  split
  · exact ⟨acc.1.graphData, acc.1.highlightedNodes, acc.1.highlightedEdges,
      acc.1.isNodeInfoBoxContainerVisible, acc.2.1, acc.2.2, rfl⟩
  · dsimp only
    obtain ⟨b, hb⟩ := hideInfoBox_shape
      { acc.1 with
        highlightedNodes := acc.1.highlightedNodes.filter (fun n => n != i.keyOf),
        highlightedEdges := acc.1.highlightedEdges.filter
          (fun e => !(acc.1.graphData.incidentEdges i.keyOf).contains e) }
    rw [hb]
    exact ⟨_, _, _, b, _, _, rfl⟩

theorem dropCore_shape (hOn : Bool) (l : List DropInput) (acc : WG × List SNode × List SEdgeSer) :
    ∃ g hN hE b nh eh, dropCore hOn acc l =
      ({ acc.1 with graphData := g, highlightedNodes := hN, highlightedEdges := hE,
                    isNodeInfoBoxContainerVisible := b }, nh, eh) := by
  induction l generalizing acc with
  | nil =>
    exact ⟨acc.1.graphData, acc.1.highlightedNodes, acc.1.highlightedEdges,
      acc.1.isNodeInfoBoxContainerVisible, acc.2.1, acc.2.2, rfl⟩
  | cons i rest ih =>
    obtain ⟨g1, hN1, hE1, b1, nh1, eh1, h1⟩ := dropOne_shape hOn acc i
    obtain ⟨g2, hN2, hE2, b2, nh2, eh2, h2⟩ := ih (dropOne hOn acc i)
    refine ⟨g2, hN2, hE2, b2, nh2, eh2, ?_⟩
    rw [dropCore, h2, h1]

theorem dropNodes_shape (inputs : List DropInput) (a : Bool) (s : WG) :
    ∃ b g hN hE v hh, dropNodes inputs a s =
      (b, { s with graphData := g, highlightedNodes := hN, highlightedEdges := hE,
                   isNodeInfoBoxContainerVisible := v, history := hh }) := by
  unfold dropNodes
  dsimp only
  obtain ⟨g1, hN1, hE1, b1, nh1, eh1, h1⟩ := dropCore_shape (s.isHistoryEnabled && a) inputs (s, [], [])
  rw [h1]
  dsimp only
  split
  · exact ⟨true, _, _, _, _, _, rfl⟩
  · exact ⟨true, _, _, _, _, _, rfl⟩

theorem mergeEdges_shape (es : List SEdgeSer) (a : Bool) (s : WG) :
    ∃ b g hh, mergeEdges es a s = (b, { s with graphData := g, history := hh }) := by
  unfold mergeEdges
  split
  · exact ⟨false, s.graphData, s.history, rfl⟩
  · dsimp only
    split
    · exact ⟨true, _, _, rfl⟩
    · exact ⟨true, _, _, rfl⟩

theorem replaceEdges_shape (es : List SEdgeSer) (a : Bool) (s : WG) :
    ∃ b g hh, replaceEdges es a s = (b, { s with graphData := g, history := hh }) := by
  unfold replaceEdges
  dsimp only
  split
  · obtain ⟨b2, g2, hh2, h2⟩ := mergeEdges_shape es false
      { s with
        history := s.history.map (fun h =>
          addAction h { emptyPayload with edges := some (s.graphData.edges.map (fun p =>
            (⟨some p.1, p.2.src, p.2.tgt, some p.2.attrs⟩ : SEdgeSer))) }
            .replaceEdges { emptyPayload with edges := some es }),
        graphData := s.graphData.clearEdges }
    rw [h2]
    exact ⟨true, _, _, rfl⟩
  · obtain ⟨b2, g2, hh2, h2⟩ := mergeEdges_shape es false { s with graphData := s.graphData.clearEdges }
    rw [h2]
    exact ⟨true, _, _, rfl⟩

theorem toggleEdgeRendering_shape (h : Option Bool) (a : Bool) (s : WG) :
    ∃ b r hh, toggleEdgeRendering h a s =
      { s with isEdgeRenderingDisabled := b, renderer := r, history := hh } := by
  unfold toggleEdgeRendering
  dsimp only
  cases h with
  | some v => split <;> exact ⟨_, _, _, rfl⟩
  | none => split <;> exact ⟨_, _, _, rfl⟩

theorem toggleJustImportantEdgeRendering_shape (h : Option Bool) (a : Bool) (s : WG) :
    ∃ b j r hh, toggleJustImportantEdgeRendering h a s =
      { s with isEdgeRenderingDisabled := b, isJustImportantEdgesEnabled := j,
               renderer := r, history := hh } := by
  unfold toggleJustImportantEdgeRendering
  dsimp only
  cases h with
  | some v =>
    obtain ⟨b2, r2, hh2, h2⟩ := toggleEdgeRendering_shape (some false) true
      { s with isJustImportantEdgesEnabled := v,
               renderer := s.renderer.map (fun r => { r with renderJustImportantEdges := v }) }
    rw [h2]
    split <;> exact ⟨_, _, _, _, rfl⟩
  | none =>
    obtain ⟨b2, r2, hh2, h2⟩ := toggleEdgeRendering_shape (some false) true
      { s with isJustImportantEdgesEnabled := !s.isJustImportantEdgesEnabled,
               renderer := s.renderer.map (fun r =>
                 { r with renderJustImportantEdges := !s.isJustImportantEdgesEnabled }) }
    rw [h2]
    split <;> exact ⟨_, _, _, _, rfl⟩

theorem setAndApplyDefaultNodeType_shape (t : String) (a : Bool) (s : WG) :
    ∃ b c r hh, setAndApplyDefaultNodeType t a s =
      (b, { s with configuration := c, renderer := r, history := hh }) := by
  unfold setAndApplyDefaultNodeType
  cases s.renderer with
  | none => exact ⟨false, s.configuration, s.renderer, s.history, rfl⟩
  | some r =>
    dsimp only
    split
    · exact ⟨true, _, _, _, rfl⟩
    · exact ⟨true, _, _, _, rfl⟩

theorem setAppMode_shape (m : AppMode) (s : WG) :
    ∃ c hh, setAppMode m s = { s with configuration := c, history := hh } := by
  unfold setAppMode
  dsimp only
  split
  · exact ⟨_, _, rfl⟩
  · exact ⟨_, _, rfl⟩

theorem applyMapping_nodes_only (m : List (String × Int × Int)) (g : Graph) :
    ∃ ns, applyMapping g m = { g with nodes := ns } := by
  induction m generalizing g with
  | nil => exact ⟨g.nodes, rfl⟩
  | cons p rest ih =>
    unfold applyMapping
    dsimp only
    split
    · obtain ⟨ns, hns⟩ := ih { g with nodes := g.nodes.map (fun q =>
        if q.1 = p.1 then (q.1, { q.2 with x := some p.2.1, y := some p.2.2 }) else q) }
      exact ⟨ns, hns⟩
    · exact ih g

theorem highlightSubgraphOfNode_shape (n : String) (s : WG) :
    ∃ hN hE, highlightSubgraphOfNode n s =
      { s with highlightedNodes := hN, highlightedEdges := hE } :=
  ⟨_, _, rfl⟩

theorem onEnterNode_shape (n : String) (s : WG) :
    ∃ hv hN hE, onEnterNode n s =
      { s with hoveredNode := hv, highlightedNodes := hN, highlightedEdges := hE } := by
  unfold onEnterNode
  dsimp only
  split
  · obtain ⟨hN, hE, hh⟩ := highlightSubgraphOfNode_shape n { s with hoveredNode := some n }
    rw [hh]
    exact ⟨_, _, _, rfl⟩
  · exact ⟨_, _, _, rfl⟩

/-! ## Activation state preservation -/

theorem mergeNodes_appState (ns : List SNode) (a : Bool) (s : WG) :
    ((mergeNodes ns a s).2).appState = s.appState := by
  obtain ⟨b, g, hh, h⟩ := mergeNodes_shape ns a s
  rw [h]

theorem dropNodes_appState (inputs : List DropInput) (a : Bool) (s : WG) :
    ((dropNodes inputs a s).2).appState = s.appState := by
  obtain ⟨b, g, hN, hE, v, hh, h⟩ := dropNodes_shape inputs a s
  rw [h]

theorem mergeEdges_appState (es : List SEdgeSer) (a : Bool) (s : WG) :
    ((mergeEdges es a s).2).appState = s.appState := by
  obtain ⟨b, g, hh, h⟩ := mergeEdges_shape es a s
  rw [h]

theorem replaceEdges_appState (es : List SEdgeSer) (a : Bool) (s : WG) :
    ((replaceEdges es a s).2).appState = s.appState := by
  obtain ⟨b, g, hh, h⟩ := replaceEdges_shape es a s
  rw [h]

theorem toggleEdgeRendering_appState (hd : Option Bool) (a : Bool) (s : WG) :
    (toggleEdgeRendering hd a s).appState = s.appState := by
  obtain ⟨b, r, hh, h⟩ := toggleEdgeRendering_shape hd a s
  rw [h]

theorem toggleJustImportantEdgeRendering_appState (hd : Option Bool) (a : Bool) (s : WG) :
    (toggleJustImportantEdgeRendering hd a s).appState = s.appState := by
  obtain ⟨b, j, r, hh, h⟩ := toggleJustImportantEdgeRendering_shape hd a s
  rw [h]

theorem setAndApplyDefaultNodeType_appState (t : String) (a : Bool) (s : WG) :
    ((setAndApplyDefaultNodeType t a s).2).appState = s.appState := by
  obtain ⟨b, c, r, hh, h⟩ := setAndApplyDefaultNodeType_shape t a s
  rw [h]

theorem setAppMode_appState (m : AppMode) (s : WG) :
    (setAppMode m s).appState = s.appState := by
  obtain ⟨c, hh, h⟩ := setAppMode_shape m s
  rw [h]

theorem onEnterNode_appState (n : String) (s : WG) :
    (onEnterNode n s).appState = s.appState := by
  obtain ⟨hv, hN, hE, h⟩ := onEnterNode_shape n s
  rw [h]

theorem undoStep_appState (s : WG) (a : HistoryAction) (s2 : WG)
    (h : undoStep s a = some s2) : s2.appState = s.appState := by
  unfold undoStep at h
  split at h
  all_goals first
    | (exact Option.noConfusion h)
    | (rw [Option.map_eq_some'] at h
       obtain ⟨m, hm, hf⟩ := h
       cases hf
       first
         | rfl
         | rw [setAndApplyDefaultNodeType_appState]
         | rw [replaceEdges_appState]
         | rw [toggleEdgeRendering_appState]
         | rw [toggleJustImportantEdgeRendering_appState]
         | rw [mergeNodes_appState]
         | rw [dropNodes_appState])
    | (split at h
       all_goals first
         | (exact Option.noConfusion h)
         | (dsimp only at h
            cases h
            first
              | rw [mergeNodes_appState, dropNodes_appState]
              | rw [mergeEdges_appState, mergeNodes_appState]))

theorem redoStep_appState (s : WG) (a : HistoryAction) (s2 : WG)
    (h : redoStep s a = some s2) : s2.appState = s.appState := by
  unfold redoStep at h
  split at h
  all_goals first
    | (exact Option.noConfusion h)
    | (rw [Option.map_eq_some'] at h
       obtain ⟨m, hm, hf⟩ := h
       cases hf
       first
         | rfl
         | rw [setAndApplyDefaultNodeType_appState]
         | rw [replaceEdges_appState]
         | rw [toggleEdgeRendering_appState]
         | rw [toggleJustImportantEdgeRendering_appState]
         | rw [mergeNodes_appState]
         | rw [mergeEdges_appState]
         | rw [dropNodes_appState])

theorem undo_appState (s : WG) (b : Bool) (s2 : WG) (h : undo s = .ok (b, s2)) :
    s2.appState = s.appState := by
  unfold undo at h
  split at h
  · exact absurd h (by simp)
  · split at h
    · exact absurd h (by simp)
    · split at h
      · cases h
        rfl
      · rename_i a ha
        split at h
        · cases h
          rfl
        · rename_i s3 hs3
          cases h
          exact undoStep_appState s a s3 hs3

theorem redo_appState (s : WG) (b : Bool) (s2 : WG) (h : redo s = .ok (b, s2)) :
    s2.appState = s.appState := by
  unfold redo at h
  split at h
  · exact absurd h (by simp)
  · split at h
    · exact absurd h (by simp)
    · split at h
      · cases h
        rfl
      · rename_i a ha
        split at h
        · cases h
          rfl
        · rename_i s3 hs3
          cases h
          exact redoStep_appState s a s3 hs3


/-! ## C6: the activation state machine -/

/-- C6: `render` throws exactly when already ACTIVE (so a second
consecutive `render` fails), `destroy` then `render` succeeds, a
successful `render` moves INACTIVE to ACTIVE, `destroy` moves to
INACTIVE, and every other modeled operation leaves the activation state
unchanged, so the only transitions are INACTIVE to ACTIVE via `render`
and ACTIVE to INACTIVE via `destroy`. -/
theorem render_destroy_activation_machine (s s2 : WG) :
    (s.appState = AppState.active → render s = .error "already rendering") ∧
    (render s = .ok s2 → s.appState = AppState.inactive ∧ s2.appState = AppState.active ∧
      render s2 = .error "already rendering" ∧ (render (destroy s2)).isOk = true) ∧
    (destroy s).appState = AppState.inactive ∧
    (∀ ns a, ((mergeNodes ns a s).2).appState = s.appState) ∧
    (∀ inputs a, ((dropNodes inputs a s).2).appState = s.appState) ∧
    (∀ es a, ((mergeEdges es a s).2).appState = s.appState) ∧
    (∀ es a, ((replaceEdges es a s).2).appState = s.appState) ∧
    (∀ hd a, (toggleEdgeRendering hd a s).appState = s.appState) ∧
    (∀ hd a, (toggleJustImportantEdgeRendering hd a s).appState = s.appState) ∧
    (∀ t a, ((setAndApplyDefaultNodeType t a s).2).appState = s.appState) ∧
    (∀ m, (setAppMode m s).appState = s.appState) ∧
    ((clearHistory s).2.appState = s.appState) ∧
    (∀ b, ((exportGraph b s).2).appState = s.appState) ∧
    (∀ n, (onEnterNode n s).appState = s.appState) ∧
    (∀ b s3, undo s = .ok (b, s3) → s3.appState = s.appState) ∧
    (∀ b s3, redo s = .ok (b, s3) → s3.appState = s.appState) := by
  refine ⟨?_, ?_, rfl, fun ns a => mergeNodes_appState ns a s,
    fun inputs a => dropNodes_appState inputs a s,
    fun es a => mergeEdges_appState es a s, fun es a => replaceEdges_appState es a s,
    fun hd a => toggleEdgeRendering_appState hd a s,
    fun hd a => toggleJustImportantEdgeRendering_appState hd a s,
    fun t a => setAndApplyDefaultNodeType_appState t a s, fun m => setAppMode_appState m s, rfl,
    ?_, fun n => onEnterNode_appState n s, fun b s3 => undo_appState s b s3,
    fun b s3 => redo_appState s b s3⟩
  · intro hact
    unfold render
    have : s.isRenderingActive = true := by
      unfold isRenderingActive
      rw [hact]
    rw [this]
    rfl
  · intro hok
    unfold render at hok
    split at hok
    · exact absurd hok (by simp)
    · rename_i hcond
      have hin : s.appState = AppState.inactive := by
        unfold isRenderingActive at hcond
        cases h : s.appState
        · rfl
        · rw [h] at hcond
          simp at hcond
      dsimp only at hok
      have h2 : s2.appState = AppState.active := by
        split at hok <;> (cases hok; rfl)
      refine ⟨hin, h2, ?_, ?_⟩
      · unfold render isRenderingActive
        rw [h2]
        rfl
      · have hd : (destroy s2).isRenderingActive = false := rfl
        unfold render
        rw [hd]
        rfl
  · intro b
    cases b <;> rfl

/-- Witness for C6: applying the state-machine theorem to the concrete
fresh widget shows a first `render` succeeds, a second consecutive
`render` throws, and `destroy` followed by `render` succeeds again. -/
theorem render_destroy_activation_machine_witness :
    render baseWG = Except.ok renderedWG ∧
    render renderedWG = Except.error "already rendering" ∧
    (render (destroy renderedWG)).isOk = true := by
  have h := (render_destroy_activation_machine baseWG renderedWG).2.1 (by rfl)
  exact ⟨by rfl, h.2.2.1, h.2.2.2⟩

/-! ## C3: toggleJustImportantEdgeRendering and the history -/

/-- C3 (code-bug evidence): with history enabled,
`toggleJustImportantEdgeRendering` does force general edge rendering on,
but its `toggleEdgeRendering(false)` sub-call (`index.ts` line 395) runs
with `addToHistory` left `true`, so the call appends TWO history
actions  — the sub-step records itself — where the spec says exactly one. -/
theorem toggleJustImportant_records_sub_step :
    (toggleJustImportantEdgeRendering (some true) true renderedWG).isEdgeRenderingDisabled
      = false ∧
    (toggleJustImportantEdgeRendering (some true) true renderedWG).history
      = some
        [⟨{ emptyPayload with toggleEdgeRendering := some false },
          ActionType.toggleImportantEdgeRendering,
          { emptyPayload with toggleEdgeRendering := some true }, false⟩,
         ⟨{ emptyPayload with toggleEdgeRendering := some false },
          ActionType.toggleEdgeRendering,
          { emptyPayload with toggleEdgeRendering := some false }, false⟩] :=
  ⟨rfl, rfl⟩

/-! ## C4: undo and redo guards and return values -/

theorem undo_eq_of_active (s : WG)
    (hcond : (s.renderer.isNone || !s.isRenderingActive) = false)
    (hhist : s.isHistoryEnabled = true) :
    undo s = match s.history.bind getLatestAction with
      | none => .ok (false, s)
      | some a =>
        match undoStep s a with
        | none => .ok (false, s)
        | some s2 => .ok (true, { s2 with history := s2.history.map markLatestActionAsReverted }) := by
  unfold undo
  rw [hcond, hhist]
  rfl

theorem redo_eq_of_active (s : WG)
    (hcond : (s.renderer.isNone || !s.isRenderingActive) = false)
    (hhist : s.isHistoryEnabled = true) :
    redo s = match s.history.bind getLatestRevertedAction with
      | none => .ok (false, s)
      | some a =>
        match redoStep s a with
        | none => .ok (false, s)
        | some s2 =>
          .ok (true, { s2 with history := s2.history.map markLatestRevertedActionAsNotReverted }) := by
  unfold redo
  rw [hcond, hhist]
  rfl

theorem undoStep_isSome (s : WG) (a : HistoryAction) :
    (undoStep s a).isSome = undoPayloadOk a := by
  obtain ⟨old, ty, new, rev⟩ := a
  cases ty
  case updateOrAddNode =>
    dsimp only [undoStep, undoPayloadOk]
    cases old.nodes <;> cases new.nodes <;> simp
  case dropNode =>
    dsimp only [undoStep, undoPayloadOk]
    cases old.nodes <;> cases old.edges <;> simp
  all_goals (dsimp only [undoStep, undoPayloadOk]; simp)

theorem redoStep_isSome (s : WG) (a : HistoryAction) :
    (redoStep s a).isSome = redoPayloadOk a := by
  obtain ⟨old, ty, new, rev⟩ := a
  cases ty
  all_goals (dsimp only [redoStep, redoPayloadOk]; simp)

/-- C4 (amended): `undo` and `redo` throw when rendering is inactive or
history is disabled; when active and enabled they return false not only
when no eligible action exists but also when the eligible action's
recorded payload lacks the field its type needs (as when a no-argument
toggle recorded an undefined value), and true otherwise. -/
theorem undo_redo_guards_and_returns (s : WG) :
    ((s.renderer.isNone || !s.isRenderingActive) = true →
      undo s = .error "rendering inactive" ∧ redo s = .error "rendering inactive") ∧
    ((s.renderer.isNone || !s.isRenderingActive) = false → s.isHistoryEnabled = false →
      undo s = .error "history disabled" ∧ redo s = .error "history disabled") ∧
    ((s.renderer.isNone || !s.isRenderingActive) = false → s.isHistoryEnabled = true →
      (∃ s2, undo s = .ok ((s.history.bind getLatestAction).elim false undoPayloadOk, s2)) ∧
      (∃ s3, redo s =
        .ok ((s.history.bind getLatestRevertedAction).elim false redoPayloadOk, s3))) := by
  refine ⟨?_, ?_, ?_⟩
  · intro hcond
    constructor
    · unfold undo
      rw [hcond]
      rfl
    · unfold redo
      rw [hcond]
      rfl
  · intro hcond hhist
    constructor
    · unfold undo
      rw [hcond, hhist]
      rfl
    · unfold redo
      rw [hcond, hhist]
      rfl
  · intro hcond hhist
    constructor
    · rw [undo_eq_of_active s hcond hhist]
      cases hb : s.history.bind getLatestAction
      · exact ⟨s, rfl⟩
      case some a =>
        have h2 := undoStep_isSome s a
        cases hus : undoStep s a
        · rw [hus] at h2
          have h3 : undoPayloadOk a = false := by simpa using h2.symm
          exact ⟨s, by simp [hus, h3]⟩
        case some s3 =>
          rw [hus] at h2
          have h3 : undoPayloadOk a = true := by simpa using h2.symm
          exact ⟨{ s3 with history := s3.history.map markLatestActionAsReverted },
            by simp [hus, h3]⟩
    · rw [redo_eq_of_active s hcond hhist]
      cases hb : s.history.bind getLatestRevertedAction
      · exact ⟨s, rfl⟩
      case some a =>
        have h2 := redoStep_isSome s a
        cases hus : redoStep s a
        · rw [hus] at h2
          have h3 : redoPayloadOk a = false := by simpa using h2.symm
          exact ⟨s, by simp [hus, h3]⟩
        case some s3 =>
          rw [hus] at h2
          have h3 : redoPayloadOk a = true := by simpa using h2.symm
          exact ⟨{ s3 with history := s3.history.map markLatestRevertedActionAsNotReverted },
            by simp [hus, h3]⟩

/-- Counterexample to C4 as stated: after a no-argument
`toggleEdgeRendering` and a successful `undo`, rendering is active,
history is enabled and a reverted action exists, yet `redo` returns
false (the recorded `newData.toggleEdgeRendering` is the undefined
argument), so "true otherwise" fails. -/
theorem redo_returns_false_despite_reverted_action :
    undo c4afterToggle = Except.ok (true, c4afterUndo) ∧
    c4afterUndo.renderer.isSome = true ∧
    c4afterUndo.isRenderingActive = true ∧
    c4afterUndo.isHistoryEnabled = true ∧
    (c4afterUndo.history.bind getLatestRevertedAction).isSome = true ∧
    redo c4afterUndo = Except.ok (false, c4afterUndo) :=
  ⟨rfl, rfl, rfl, rfl, rfl, rfl⟩

/-- Witness for C4 (amended): the guard theorem applied to the concrete
inactive widget and to the concrete freshly rendered widget. -/
theorem undo_redo_guards_and_returns_witness :
    (baseWG.renderer.isNone || !baseWG.isRenderingActive) = true ∧
    undo baseWG = Except.error "rendering inactive" ∧
    (renderedWG.renderer.isNone || !renderedWG.isRenderingActive) = false ∧
    renderedWG.isHistoryEnabled = true ∧
    (∃ s2, undo renderedWG =
      .ok ((renderedWG.history.bind getLatestAction).elim false undoPayloadOk, s2)) := by
  have h1 := (undo_redo_guards_and_returns baseWG).1 (by rfl)
  have h3 := (undo_redo_guards_and_returns renderedWG).2.2 (by rfl) (by rfl)
  exact ⟨rfl, h1.1, rfl, rfl, h3.1⟩

/-! ## C5: highlight membership under important-only mode -/

theorem listInsert_mem (l : List String) (k x : String) :
    x ∈ listInsert l k ↔ x ∈ l ∨ x = k := by
  unfold listInsert
  split
  · rename_i hc
    constructor
    · exact Or.inl
    · rintro (h | rfl)
      · exact h
      · simpa using hc
  · simp [List.mem_append]

theorem impEdgeLoop_flag (g : Graph) (hE : List String) (v : Bool) (es : List String) :
    (impEdgeLoop g hE v es).2 =
      (v || es.any (fun e => decide ((g.getEdgeAttrs e).important = some true))) := by
  induction es generalizing hE v with
  | nil => simp [impEdgeLoop]
  | cons e rest ih =>
    unfold impEdgeLoop
    split
    · rename_i he
      rw [ih]
      simp [he]
    · rename_i he
      rw [ih]
      simp [he]

theorem processNeighbor_fst (cfg : Config) (hcfg : cfg.includeImportantNeighbors = false)
    (rji : Bool) (g : Graph) (node : String) (acc : List String × List String) (nb : String) :
    (processNeighbor true cfg rji g node acc nb).1 =
      if (g.getNodeAttrs nb).hidden = some true then acc.1
      else if hasImportantEdgeBetween g node nb then listInsert acc.1 nb else acc.1 := by
  unfold processNeighbor
  split
  · rfl
  · rename_i hh
    dsimp only
    rw [hcfg]
    simp only [Bool.and_false, Bool.false_eq_true, if_false, List.foldl_nil]
    rw [impEdgeLoop_flag, impEdgeLoop_flag]
    simp [hasImportantEdgeBetween, List.any_append]

theorem foldl_processNeighbor_mem (cfg : Config)
    (hcfg : cfg.includeImportantNeighbors = false) (rji : Bool) (g : Graph)
    (node x : String) (nbs : List String) :
    ∀ acc : List String × List String,
      (x ∈ (nbs.foldl (processNeighbor true cfg rji g node) acc).1 ↔
        x ∈ acc.1 ∨ (x ∈ nbs ∧ ¬(g.getNodeAttrs x).hidden = some true ∧
          hasImportantEdgeBetween g node x = true)) := by
  induction nbs with
  | nil => simp
  | cons nb rest ih =>
    intro acc
    rw [List.foldl_cons, ih]
    have hpf := processNeighbor_fst cfg hcfg rji g node acc nb
    by_cases hh : (g.getNodeAttrs nb).hidden = some true
    · rw [if_pos hh] at hpf
      rw [hpf]
      constructor
      · rintro (h | ⟨hm, hp⟩)
        · exact Or.inl h
        · exact Or.inr ⟨List.mem_cons_of_mem _ hm, hp⟩
      · rintro (h | ⟨hm, hNh, hImp⟩)
        · exact Or.inl h
        · rcases List.mem_cons.mp hm with rfl | hm2
          · exact absurd hh hNh
          · exact Or.inr ⟨hm2, hNh, hImp⟩
    · rw [if_neg hh] at hpf
      by_cases hi : hasImportantEdgeBetween g node nb = true
      · rw [if_pos hi] at hpf
        rw [hpf, listInsert_mem]
        constructor
        · rintro ((h | rfl) | ⟨hm, hp⟩)
          · exact Or.inl h
          · exact Or.inr ⟨List.mem_cons_self _ _, hh, hi⟩
          · exact Or.inr ⟨List.mem_cons_of_mem _ hm, hp⟩
        · rintro (h | ⟨hm, hNh, hImp⟩)
          · exact Or.inl (Or.inl h)
          · rcases List.mem_cons.mp hm with rfl | hm2
            · exact Or.inl (Or.inr rfl)
            · exact Or.inr ⟨hm2, hNh, hImp⟩
      · rw [if_neg hi] at hpf
        rw [hpf]
        constructor
        · rintro (h | ⟨hm, hp⟩)
          · exact Or.inl h
          · exact Or.inr ⟨List.mem_cons_of_mem _ hm, hp⟩
        · rintro (h | ⟨hm, hNh, hImp⟩)
          · exact Or.inl h
          · rcases List.mem_cons.mp hm with rfl | hm2
            · exact absurd hImp hi
            · exact Or.inr ⟨hm2, hNh, hImp⟩

/-- C5 (amended): with important-only edge rendering ON and the
include-important-neighbors configuration OFF, hovering a non-hidden
node adds a non-hidden direct neighbor to the highlighted-nodes set if
and only if at least one edge between the neighbor and the hovered node
(in either direction) has `important = true`. -/
theorem importantOnly_highlight_iff (s : WG) (node x : String)
    (hmode : s.isJustImportantEdgesEnabled = true)
    (hinc : s.configuration.includeImportantNeighbors = false)
    (hedges : s.isEdgeRenderingDisabled = false)
    (hnode : ¬(s.graphData.getNodeAttrs node).hidden = some true)
    (hxnb : x ∈ s.graphData.neighbors node)
    (hxh : ¬(s.graphData.getNodeAttrs x).hidden = some true)
    (hxne : x ≠ node)
    (hempty : s.highlightedNodes = []) :
    (x ∈ (onEnterNode node s).highlightedNodes ↔
      hasImportantEdgeBetween s.graphData node x = true) := by
  unfold onEnterNode
  dsimp only
  rw [hedges]
  have hdn : decide ((s.graphData.getNodeAttrs node).hidden = some true) = false :=
    decide_eq_false hnode
  rw [hdn]
  simp only [Bool.not_false, Bool.and_self, if_pos]
  unfold highlightSubgraphOfNode
  dsimp only
  rw [listInsert_mem]
  rw [hmode]
  rw [foldl_processNeighbor_mem s.configuration hinc _ s.graphData node x]
  rw [hempty]
  simp only [List.not_mem_nil, false_or]
  constructor
  · rintro (⟨hm, hNh, hImp⟩ | rfl)
    · exact hImp
    · exact absurd rfl hxne
  · intro hImp
    exact Or.inl ⟨hxnb, hxh, hImp⟩

/-- Counterexample to C5 as stated: with include-important-neighbors
enabled, hovering H highlights its direct neighbor X through the
second-order important-neighbor path even though no edge between X and H
is important, refuting the only-if direction of the claim. -/
theorem neighbor_highlighted_without_important_edge :
    "X" ∈ (onEnterNode "H" c5State).highlightedNodes ∧
    "X" ∈ c5State.graphData.neighbors "H" ∧
    c5State.isJustImportantEdgesEnabled = true ∧
    c5State.isEdgeRenderingDisabled = false ∧
    ¬(c5State.graphData.getNodeAttrs "H").hidden = some true ∧
    ¬(c5State.graphData.getNodeAttrs "X").hidden = some true ∧
    hasImportantEdgeBetween c5State.graphData "H" "X" = false := by
  refine ⟨?_, ?_, rfl, rfl, ?_, ?_, rfl⟩ <;> decide

/-- Witness for C5 (amended): on the concrete graph with
include-important-neighbors disabled, the iff holds for the direct
neighbor X of the hovered node H. -/
theorem importantOnly_highlight_iff_witness :
    "X" ∈ c5aState.graphData.neighbors "H" ∧
    c5aState.configuration.includeImportantNeighbors = false ∧
    ("X" ∈ (onEnterNode "H" c5aState).highlightedNodes ↔
      hasImportantEdgeBetween c5aState.graphData "H" "X" = true) :=
  ⟨by decide, rfl,
    importantOnly_highlight_iff c5aState "H" "X" rfl rfl rfl (by decide) (by decide)
      (by decide) (by decide) rfl⟩

/-- C7: calling `toggleEdgeRendering` with no argument flips the
edge-rendering-disabled flag, and calling it twice with no argument
returns the flag to its original value, whatever the rest of the state. -/
theorem toggleEdgeRendering_noarg_involution (s : WG) (addToHistory : Bool) :
    (toggleEdgeRendering none addToHistory s).isEdgeRenderingDisabled
      = !s.isEdgeRenderingDisabled ∧
    (toggleEdgeRendering none addToHistory
        (toggleEdgeRendering none addToHistory s)).isEdgeRenderingDisabled
      = s.isEdgeRenderingDisabled := by
  have flip : ∀ (t : WG), (toggleEdgeRendering none addToHistory t).isEdgeRenderingDisabled
      = !t.isEdgeRenderingDisabled := by
    intro t
    simp only [toggleEdgeRendering]
    split <;> rfl
  exact ⟨flip s, by rw [flip, flip, Bool.not_not]⟩

/-! ## C8: return values of mergeNodes and dropNodes -/

/-- C8: `mergeNodes` returns false exactly on empty input and true
otherwise, while `dropNodes` returns true on every input, with or
without history. -/
theorem mergeNodes_dropNodes_return_values (nodes : List SNode)
    (inputs : List DropInput) (a1 a2 : Bool) (s t : WG) :
    (mergeNodes nodes a1 s).1 = !nodes.isEmpty ∧ (dropNodes inputs a2 t).1 = true := by
  constructor
  · cases nodes with
    | nil => rfl
    | cons n rest => rfl
  · rfl

/-! ## C9: exportGraph side effect on the live graph -/

/-- C9: `exportGraph true` clears every edge of the live caller-owned
graph (and the exported copy has no edges), while `exportGraph false`
returns the graph and leaves the state unchanged. -/
theorem exportGraph_excludeEdges_clears_live_graph (s : WG) :
    (exportGraph true s).2.graphData.edges = [] ∧
    (exportGraph true s).1.edges = [] ∧
    exportGraph false s = (s.graphData, s) :=
  ⟨rfl, rfl, rfl⟩

/-! ## C10: destroy is an unguarded idempotent teardown -/

/-- C10: `destroy` never throws (it is a total function of the state,
with no guard), always leaves the widget INACTIVE with empty highlight
sets, no hovered node and no history, and running it twice equals
running it once. -/
theorem destroy_idempotent_and_resets (s : WG) :
    (destroy s).appState = AppState.inactive ∧
    (destroy s).highlightedNodes = [] ∧
    (destroy s).highlightedEdges = [] ∧
    (destroy s).hoveredNode = none ∧
    (destroy s).history = none ∧
    destroy (destroy s) = destroy s :=
  ⟨rfl, rfl, rfl, rfl, rfl, rfl⟩

/-! ## Association list and attribute merge lemmas -/

theorem oMerge_self {α : Type} (o : Option α) : oMerge o o = o := by
  cases o <;> rfl

theorem oMerge_none_right {α : Type} (o : Option α) : oMerge o none = o := by
  cases o <;> rfl

theorem mergeNodeAttrs_self (a : NodeAttrs) : mergeNodeAttrs a a = a := by
  cases a
  simp [mergeNodeAttrs, oMerge_self]

theorem mergeEdgeAttrs_self (a : EdgeAttrs) : mergeEdgeAttrs a a = a := by
  cases a
  simp [mergeEdgeAttrs, oMerge_self]

theorem alookup_append {α : Type} (l1 l2 : List (String × α)) (k : String) :
    alookup (l1 ++ l2) k = oMerge (alookup l1 k) (alookup l2 k) := by
  induction l1 with
  | nil => rfl
  | cons p ps ih =>
    simp only [List.cons_append, alookup]
    split
    · rfl
    · exact ih

theorem alookup_map_replaceVal_self {α : Type} (l : List (String × α)) (k : String)
    (f : α → α) : alookup (l.map (replaceVal k f)) k = (alookup l k).map f := by
  induction l with
  | nil => rfl
  | cons p ps ih =>
    by_cases h : p.1 = k
    · simp [alookup, replaceVal, h]
    · simp [alookup, replaceVal, h, ih]

theorem alookup_map_replaceVal_ne {α : Type} (l : List (String × α)) (k k' : String)
    (f : α → α) (hne : k' ≠ k) :
    alookup (l.map (replaceVal k f)) k' = alookup l k' := by
  induction l with
  | nil => rfl
  | cons p ps ih =>
    by_cases h : p.1 = k
    · have h2 : ¬p.1 = k' := by
        rw [h]
        exact fun hh => hne hh.symm
      simp [alookup, replaceVal, h, h2, Ne.symm hne, ih]
    · by_cases h3 : p.1 = k'
      · simp [alookup, replaceVal, h, h3, hne]
      · simp [alookup, replaceVal, h, h3, ih]

theorem alookup_filter_keyne_self {α : Type} (l : List (String × α)) (k : String) :
    alookup (l.filter (fun p => p.1 != k)) k = none := by
  induction l with
  | nil => rfl
  | cons p ps ih =>
    by_cases h : p.1 = k
    · simp [List.filter_cons, h, ih]
    · simp [List.filter_cons, bne_iff_ne, h, alookup, ih]

theorem alookup_filter_keyne_other {α : Type} (l : List (String × α)) (k k' : String)
    (hne : k' ≠ k) :
    alookup (l.filter (fun p => p.1 != k)) k' = alookup l k' := by
  induction l with
  | nil => rfl
  | cons p ps ih =>
    by_cases h : p.1 = k
    · have h2 : ¬p.1 = k' := by
        rw [h]
        exact fun hh => hne hh.symm
      simp [List.filter_cons, h, alookup, h2, Ne.symm hne, ih]
    · by_cases h3 : p.1 = k'
      · simp [List.filter_cons, bne_iff_ne, h, alookup, h3, hne, ih]
      · simp [List.filter_cons, bne_iff_ne, h, alookup, h3, ih]

theorem alookup_eq_none_iff {α : Type} (l : List (String × α)) (k : String) :
    alookup l k = none ↔ k ∉ l.map Prod.fst := by
  induction l with
  | nil => simp [alookup]
  | cons p ps ih =>
    by_cases h : p.1 = k
    · simp [alookup, h]
    · simp only [alookup, if_neg h, List.map_cons, List.mem_cons, ih]
      constructor
      · intro hk hor
        rcases hor with he | hm
        · exact h he.symm
        · exact hk hm
      · intro hk hm
        exact hk (Or.inr hm)

theorem alookup_mem {α : Type} (l : List (String × α)) (k : String) (v : α)
    (h : alookup l k = some v) : (k, v) ∈ l := by
  induction l with
  | nil => cases h
  | cons p ps ih =>
    by_cases hc : p.1 = k
    · rw [alookup, if_pos hc] at h
      cases h
      have hpe : (k, p.2) = p := by rw [← hc]
      rw [hpe]
      exact List.mem_cons_self _ _
    · rw [alookup, if_neg hc] at h
      exact List.mem_cons_of_mem _ (ih h)

theorem mem_alookup_of_nodupkeys {α : Type} (l : List (String × α)) (k : String) (v : α)
    (hn : (l.map Prod.fst).Nodup) (hm : (k, v) ∈ l) : alookup l k = some v := by
  induction l with
  | nil => cases hm
  | cons p ps ih =>
    rcases List.mem_cons.mp hm with heq | hm2
    · rw [← heq]
      simp [alookup]
    · have hpk : p.1 ≠ k := by
        intro he
        have hk : k ∈ ps.map Prod.fst := List.mem_map.mpr ⟨(k, v), hm2, rfl⟩
        rw [List.map_cons, List.nodup_cons] at hn
        exact hn.1 (he ▸ hk)
      rw [alookup, if_neg hpk]
      exact ih (by rw [List.map_cons, List.nodup_cons] at hn; exact hn.2) hm2

theorem alookup_sublist {α : Type} {l l' : List (String × α)} (hs : l'.Sublist l)
    (hn : (l.map Prod.fst).Nodup) (k : String) (v : α) (h : alookup l' k = some v) :
    alookup l k = some v :=
  mem_alookup_of_nodupkeys l k v hn (hs.subset (alookup_mem l' k v h))

/-! ## Graph store operation lemmas -/

theorem mergeNode_edges (g : Graph) (k : String) (a : NodeAttrs) :
    (g.mergeNode k a).edges = g.edges := by
  unfold Graph.mergeNode
  split <;> rfl

theorem mergeNode_lookup_absent (g : Graph) (k : String) (a : NodeAttrs)
    (h : alookup g.nodes k = none) : alookup (g.mergeNode k a).nodes k = some a := by
  unfold Graph.mergeNode Graph.hasNode
  rw [h]
  simp only [Option.isSome_none, Bool.false_eq_true, if_false]
  rw [alookup_append, h]
  simp [alookup, oMerge]

theorem mergeNode_lookup_present (g : Graph) (k : String) (a o : NodeAttrs)
    (h : alookup g.nodes k = some o) :
    alookup (g.mergeNode k a).nodes k = some (mergeNodeAttrs o a) := by
  unfold Graph.mergeNode Graph.hasNode
  rw [h]
  simp only [Option.isSome_some, if_true]
  rw [alookup_map_replaceVal_self, h]
  rfl

theorem mergeNode_lookup_other (g : Graph) (k : String) (a : NodeAttrs) (k' : String)
    (hne : k' ≠ k) : alookup (g.mergeNode k a).nodes k' = alookup g.nodes k' := by
  unfold Graph.mergeNode
  split
  · exact alookup_map_replaceVal_ne _ _ _ _ hne
  · rw [alookup_append]
    have h2 : alookup [(k, a)] k' = none := by
      simp only [alookup]
      rw [if_neg (fun he => hne he.symm)]
    rw [h2, oMerge_none_right]

theorem mergeNode_isSome_self (g : Graph) (k : String) (a : NodeAttrs) :
    (alookup (g.mergeNode k a).nodes k).isSome = true := by
  cases h : alookup g.nodes k
  · rw [mergeNode_lookup_absent g k a h]
    rfl
  · rw [mergeNode_lookup_present g k a _ h]
    rfl

theorem dropNode_nodes_self (g : Graph) (k : String) :
    alookup (g.dropNode k).nodes k = none :=
  alookup_filter_keyne_self _ _

theorem dropNode_nodes_other (g : Graph) (k k' : String) (hne : k' ≠ k) :
    alookup (g.dropNode k).nodes k' = alookup g.nodes k' :=
  alookup_filter_keyne_other _ _ _ hne

theorem dropNode_nodes_sublist (g : Graph) (k : String) :
    (g.dropNode k).nodes.Sublist g.nodes :=
  List.filter_sublist _

theorem dropNode_edges_sublist (g : Graph) (k : String) :
    (g.dropNode k).edges.Sublist g.edges :=
  List.filter_sublist _

theorem dropNode_edges_no_incident (g : Graph) (k : String) :
    ∀ p ∈ (g.dropNode k).edges, Graph.incident p.2 k = false := by
  intro p hp
  have h2 := (List.mem_filter.mp hp).2
  simpa using h2

theorem incidentEdges_nil_iff (g : Graph) (k : String) :
    g.incidentEdges k = [] ↔ ∀ p ∈ g.edges, Graph.incident p.2 k = false := by
  constructor
  · intro h p hp
    by_contra hcon
    have hinc : Graph.incident p.2 k = true := by
      cases hi : Graph.incident p.2 k
      · exact absurd hi hcon
      · rfl
    have : p.1 ∈ g.incidentEdges k :=
      List.mem_map.mpr ⟨p, List.mem_filter.mpr ⟨hp, hinc⟩, rfl⟩
    rw [h] at this
    cases this
  · intro h
    unfold Graph.incidentEdges
    have : g.edges.filter (fun p => Graph.incident p.2 k) = [] := by
      rw [List.filter_eq_nil_iff]
      intro p hp
      rw [h p hp]
      exact Bool.false_ne_true
    rw [this]
    rfl

theorem mem_incidentEdges_iff (g : Graph) (k e : String) :
    e ∈ g.incidentEdges k ↔ ∃ r, (e, r) ∈ g.edges ∧ Graph.incident r k = true := by
  constructor
  · intro hm
    obtain ⟨p, hp, hpe⟩ := List.mem_map.mp hm
    have h2 := List.mem_filter.mp hp
    refine ⟨p.2, ?_, h2.2⟩
    have hpeq : (e, p.2) = p := by rw [← hpe]
    rw [hpeq]
    exact h2.1
  · rintro ⟨r, hmem, hinc⟩
    exact List.mem_map.mpr ⟨(e, r), List.mem_filter.mpr ⟨hmem, hinc⟩, rfl⟩

theorem unhideEdgesOf_id (g : Graph) (k : String) (h : g.incidentEdges k = []) :
    unhideEdgesOf g k = g := by
  unfold unhideEdgesOf
  rw [h]
  rfl

theorem unhideAll_id (ns : List SNode) :
    ∀ g : Graph, (∀ n ∈ ns, g.incidentEdges n.key = []) → unhideAll g ns = g := by
  induction ns with
  | nil => intro g _; rfl
  | cons n rest ih =>
    intro g h
    unfold unhideAll
    rw [unhideEdgesOf_id g n.key (h n (List.mem_cons_self _ _))]
    exact ih g (fun m hm => h m (List.mem_cons_of_mem _ hm))

theorem addNodeIfAbsent_edges (g : Graph) (k : String) :
    (g.addNodeIfAbsent k).edges = g.edges := by
  unfold Graph.addNodeIfAbsent
  split <;> rfl

theorem addNodeIfAbsent_lookup_mono (g : Graph) (k k' : String) (v : NodeAttrs)
    (h : alookup g.nodes k' = some v) :
    alookup (g.addNodeIfAbsent k).nodes k' = some v := by
  unfold Graph.addNodeIfAbsent
  split
  · exact h
  · rw [alookup_append, h]
    rfl

theorem mergeEdgeWithKey_lookup_absent (g : Graph) (k s t : String) (a : Option EdgeAttrs)
    (h : alookup g.edges k = none) :
    alookup (g.mergeEdgeWithKey k s t a).edges k =
      some ⟨s, t, a.getD emptyEdgeAttrs⟩ := by
  unfold Graph.mergeEdgeWithKey Graph.hasEdgeKey
  rw [h]
  simp only [Option.isSome_none, Bool.false_eq_true, if_false]
  rw [addNodeIfAbsent_edges, addNodeIfAbsent_edges, alookup_append, h]
  simp [alookup, oMerge]

theorem mergeEdgeWithKey_lookup_present (g : Graph) (k s t : String) (a : Option EdgeAttrs)
    (r : EdgeRec) (h : alookup g.edges k = some r) :
    alookup (g.mergeEdgeWithKey k s t a).edges k =
      some ⟨r.src, r.tgt, mergeEdgeAttrs r.attrs (a.getD emptyEdgeAttrs)⟩ := by
  unfold Graph.mergeEdgeWithKey Graph.hasEdgeKey
  rw [h]
  simp only [Option.isSome_some, if_true]
  rw [alookup_map_replaceVal_self, h]
  rfl

theorem mergeEdgeWithKey_lookup_other (g : Graph) (k s t : String) (a : Option EdgeAttrs)
    (e : String) (hne : e ≠ k) :
    alookup (g.mergeEdgeWithKey k s t a).edges e = alookup g.edges e := by
  unfold Graph.mergeEdgeWithKey
  split
  · exact alookup_map_replaceVal_ne _ _ _ _ hne
  · dsimp only
    rw [addNodeIfAbsent_edges, addNodeIfAbsent_edges, alookup_append]
    have h2 : alookup [(k, (⟨s, t, a.getD emptyEdgeAttrs⟩ : EdgeRec))] e = none := by
      simp only [alookup]
      rw [if_neg (fun he => hne he.symm)]
    rw [h2, oMerge_none_right]

theorem mergeEdgeWithKey_nodes_mono (g : Graph) (k s t : String) (a : Option EdgeAttrs)
    (k' : String) (v : NodeAttrs) (h : alookup g.nodes k' = some v) :
    alookup (g.mergeEdgeWithKey k s t a).nodes k' = some v := by
  unfold Graph.mergeEdgeWithKey
  split
  · exact h
  · exact addNodeIfAbsent_lookup_mono _ _ _ _ (addNodeIfAbsent_lookup_mono _ _ _ _ h)

/-! ## dropNodes fold lemmas -/

theorem alookup_none_of_sublist {α : Type} {l l' : List (String × α)} (hs : l'.Sublist l)
    (k : String) (h : alookup l k = none) : alookup l' k = none := by
  rw [alookup_eq_none_iff] at h ⊢
  exact fun hk => h ((hs.map Prod.fst).subset hk)

theorem hideInfoBox_graphData (s : WG) : (hideInfoBox s).graphData = s.graphData := by
  obtain ⟨b, hb⟩ := hideInfoBox_shape s
  rw [hb]

theorem dropOne_skip (hOn : Bool) (acc : WG × List SNode × List SEdgeSer) (i : DropInput)
    (h : acc.1.graphData.hasNode i.keyOf = false) : dropOne hOn acc i = acc := by
  unfold dropOne
  rw [h]
  rfl

theorem dropOne_hit_graphData (hOn : Bool) (acc : WG × List SNode × List SEdgeSer)
    (i : DropInput) (h : acc.1.graphData.hasNode i.keyOf = true) :
    (dropOne hOn acc i).1.graphData = acc.1.graphData.dropNode i.keyOf := by
  unfold dropOne
  rw [h]
  simp only [Bool.not_true, Bool.false_eq_true, if_false]
  rw [hideInfoBox_graphData]

theorem dropOne_hit_nodH (acc : WG × List SNode × List SEdgeSer)
    (i : DropInput) (h : acc.1.graphData.hasNode i.keyOf = true) :
    (dropOne true acc i).2.1 =
      acc.2.1 ++ [⟨i.toStr, some (acc.1.graphData.getNodeAttrs i.keyOf)⟩] := by
  unfold dropOne
  rw [h]
  simp only [Bool.not_true, Bool.false_eq_true, if_false]
  rw [if_pos trivial, hideInfoBox_graphData]

theorem dropOne_hit_edgeH (acc : WG × List SNode × List SEdgeSer)
    (i : DropInput) (h : acc.1.graphData.hasNode i.keyOf = true) :
    (dropOne true acc i).2.2 =
      acc.2.2 ++ (acc.1.graphData.incidentEdges i.keyOf).map (fun e =>
        (⟨some e, acc.1.graphData.edgeSource e, acc.1.graphData.edgeTarget e,
          some (acc.1.graphData.getEdgeAttrs e)⟩ : SEdgeSer)) := by
  unfold dropOne
  rw [h]
  simp only [Bool.not_true, Bool.false_eq_true, if_false]
  rw [if_pos trivial]

theorem dropOne_nodes_sublist (hOn : Bool) (acc : WG × List SNode × List SEdgeSer)
    (i : DropInput) :
    ((dropOne hOn acc i).1).graphData.nodes.Sublist acc.1.graphData.nodes := by
  cases h : acc.1.graphData.hasNode i.keyOf
  · rw [dropOne_skip hOn acc i h]
  · rw [dropOne_hit_graphData hOn acc i h]
    exact dropNode_nodes_sublist _ _

theorem dropOne_edges_sublist (hOn : Bool) (acc : WG × List SNode × List SEdgeSer)
    (i : DropInput) :
    ((dropOne hOn acc i).1).graphData.edges.Sublist acc.1.graphData.edges := by
  cases h : acc.1.graphData.hasNode i.keyOf
  · rw [dropOne_skip hOn acc i h]
  · rw [dropOne_hit_graphData hOn acc i h]
    exact dropNode_edges_sublist _ _

theorem dropCore_nodes_sublist (hOn : Bool) (inputs : List DropInput) :
    ∀ acc, ((dropCore hOn acc inputs).1).graphData.nodes.Sublist acc.1.graphData.nodes := by
  induction inputs with
  | nil => intro acc; exact List.Sublist.refl _
  | cons i rest ih =>
    intro acc
    exact (ih (dropOne hOn acc i)).trans (dropOne_nodes_sublist hOn acc i)

theorem dropCore_edges_sublist (hOn : Bool) (inputs : List DropInput) :
    ∀ acc, ((dropCore hOn acc inputs).1).graphData.edges.Sublist acc.1.graphData.edges := by
  induction inputs with
  | nil => intro acc; exact List.Sublist.refl _
  | cons i rest ih =>
    intro acc
    exact (ih (dropOne hOn acc i)).trans (dropOne_edges_sublist hOn acc i)

theorem dropCore_lookup_other (hOn : Bool) (inputs : List DropInput) :
    ∀ acc (k : String), (∀ i ∈ inputs, i.keyOf ≠ k) →
      alookup ((dropCore hOn acc inputs).1).graphData.nodes k =
        alookup acc.1.graphData.nodes k := by
  induction inputs with
  | nil => intro acc k _; rfl
  | cons i rest ih =>
    intro acc k hk
    rw [show dropCore hOn acc (i :: rest) = dropCore hOn (dropOne hOn acc i) rest from rfl]
    rw [ih (dropOne hOn acc i) k (fun j hj => hk j (List.mem_cons_of_mem _ hj))]
    cases h : acc.1.graphData.hasNode i.keyOf
    · rw [dropOne_skip hOn acc i h]
    · rw [dropOne_hit_graphData hOn acc i h]
      exact dropNode_nodes_other _ _ _ (fun he => hk i (List.mem_cons_self _ _) he.symm)

theorem dropCore_lookup_dropped (hOn : Bool) (inputs : List DropInput) :
    ∀ acc (k : String), (∃ i ∈ inputs, i.keyOf = k) →
      alookup ((dropCore hOn acc inputs).1).graphData.nodes k = none := by
  induction inputs with
  | nil =>
    intro acc k hex
    obtain ⟨i, hi, _⟩ := hex
    cases hi
  | cons i rest ih =>
    intro acc k hex
    rw [show dropCore hOn acc (i :: rest) = dropCore hOn (dropOne hOn acc i) rest from rfl]
    obtain ⟨j, hj, hjk⟩ := hex
    rcases List.mem_cons.mp hj with heq | hm
    · subst heq
      have habs : alookup ((dropOne hOn acc j).1).graphData.nodes k = none := by
        cases h : acc.1.graphData.hasNode j.keyOf
        · rw [dropOne_skip hOn acc j h]
          unfold Graph.hasNode at h
          rw [hjk] at h
          cases hl : alookup acc.1.graphData.nodes k
          · rfl
          · rw [hl] at h
            cases h
        · rw [dropOne_hit_graphData hOn acc j h, ← hjk]
          exact dropNode_nodes_self _ _
      exact alookup_none_of_sublist (dropCore_nodes_sublist hOn rest _) k habs
    · exact ih (dropOne hOn acc i) k ⟨j, hm, hjk⟩

theorem dropCore_dropped_no_incident (hOn : Bool) (inputs : List DropInput) :
    ∀ acc (k : String),
      ((alookup acc.1.graphData.nodes k ≠ none) ∨
        (∀ p ∈ acc.1.graphData.edges, Graph.incident p.2 k = false)) →
      alookup ((dropCore hOn acc inputs).1).graphData.nodes k = none →
      ∀ p ∈ ((dropCore hOn acc inputs).1).graphData.edges, Graph.incident p.2 k = false := by
  induction inputs with
  | nil =>
    intro acc k hinv hnone
    rcases hinv with hpres | hni
    · exact absurd hnone hpres
    · exact hni
  | cons i rest ih =>
    intro acc k hinv hnone
    rw [show dropCore hOn acc (i :: rest) = dropCore hOn (dropOne hOn acc i) rest from rfl] at hnone ⊢
    refine ih (dropOne hOn acc i) k ?_ hnone
    cases h : acc.1.graphData.hasNode i.keyOf
    · rw [dropOne_skip hOn acc i h]
      exact hinv
    · by_cases hik : i.keyOf = k
      · right
        rw [dropOne_hit_graphData hOn acc i h, hik]
        exact dropNode_edges_no_incident _ _
      · rcases hinv with hpres | hni
        · left
          rw [dropOne_hit_graphData hOn acc i h]
          rw [dropNode_nodes_other _ _ _ (fun he => hik he.symm)]
          exact hpres
        · right
          rw [dropOne_hit_graphData hOn acc i h]
          intro p hp
          exact hni p ((dropNode_edges_sublist _ _).subset hp)

/-! ## Recording invariant of the dropNodes loop -/

theorem mem_value_unique {α : Type} (l : List (String × α))
    (hn : (l.map Prod.fst).Nodup) {e : String} {a b : α}
    (h1 : (e, a) ∈ l) (h2 : (e, b) ∈ l) : a = b := by
  have ha := mem_alookup_of_nodupkeys l e a hn h1
  have hb := mem_alookup_of_nodupkeys l e b hn h2
  rw [ha] at hb
  exact Option.some.inj hb

theorem dropNode_lookup_none_of_incident (g : Graph) (k e : String) (r : EdgeRec)
    (hn : (g.edges.map Prod.fst).Nodup) (hl : alookup g.edges e = some r)
    (hinc : Graph.incident r k = true) :
    alookup (g.dropNode k).edges e = none := by
  rw [alookup_eq_none_iff]
  intro hmem
  obtain ⟨q, hq, hqe⟩ := List.mem_map.mp hmem
  have hq2 : (e, q.2) ∈ g.edges := by
    have hqeta : (q.1, q.2) = q := rfl
    rw [← hqe, hqeta]
    exact (dropNode_edges_sublist g k).subset hq
  have hqr : q.2 = r := mem_value_unique _ hn hq2 (alookup_mem _ _ _ hl)
  have hni := dropNode_edges_no_incident g k q hq
  rw [hqr, hinc] at hni
  cases hni

theorem edge_getters_of_lookup (g : Graph) (e : String) (r : EdgeRec)
    (h : alookup g.edges e = some r) :
    g.edgeSource e = r.src ∧ g.edgeTarget e = r.tgt ∧ g.getEdgeAttrs e = r.attrs := by
  unfold Graph.edgeSource Graph.edgeTarget Graph.getEdgeAttrs Graph.getEdgeRec
  rw [h]
  exact ⟨rfl, rfl, rfl⟩

theorem dropCore_record_invariant (g0 : Graph)
    (hnN : (g0.nodes.map Prod.fst).Nodup) (hnE : (g0.edges.map Prod.fst).Nodup)
    (ks : List String) :
    ∀ (acc : WG × List SNode × List SEdgeSer),
      acc.1.graphData.nodes.Sublist g0.nodes →
      acc.1.graphData.edges.Sublist g0.edges →
      (∀ p ∈ acc.2.1, ∃ a, p.attrs = some a ∧ alookup g0.nodes p.key = some a ∧
        alookup acc.1.graphData.nodes p.key = none) →
      (∀ (k : String) (v : NodeAttrs), alookup g0.nodes k = some v →
        alookup acc.1.graphData.nodes k = none → (⟨k, some v⟩ : SNode) ∈ acc.2.1) →
      (∀ q ∈ acc.2.2, ∃ e r, q = (⟨some e, r.src, r.tgt, some r.attrs⟩ : SEdgeSer) ∧
        alookup g0.edges e = some r ∧ alookup acc.1.graphData.edges e = none) →
      (∀ (e : String) (r : EdgeRec), alookup g0.edges e = some r →
        alookup acc.1.graphData.edges e = none →
        (⟨some e, r.src, r.tgt, some r.attrs⟩ : SEdgeSer) ∈ acc.2.2) →
      ((dropCore true acc (ks.map DropInput.key)).1.graphData.nodes.Sublist g0.nodes ∧
       (dropCore true acc (ks.map DropInput.key)).1.graphData.edges.Sublist g0.edges ∧
       (∀ p ∈ (dropCore true acc (ks.map DropInput.key)).2.1, ∃ a, p.attrs = some a ∧
         alookup g0.nodes p.key = some a ∧
         alookup (dropCore true acc (ks.map DropInput.key)).1.graphData.nodes p.key = none) ∧
       (∀ (k : String) (v : NodeAttrs), alookup g0.nodes k = some v →
         alookup (dropCore true acc (ks.map DropInput.key)).1.graphData.nodes k = none →
         (⟨k, some v⟩ : SNode) ∈ (dropCore true acc (ks.map DropInput.key)).2.1) ∧
       (∀ q ∈ (dropCore true acc (ks.map DropInput.key)).2.2, ∃ e r,
         q = (⟨some e, r.src, r.tgt, some r.attrs⟩ : SEdgeSer) ∧
         alookup g0.edges e = some r ∧
         alookup (dropCore true acc (ks.map DropInput.key)).1.graphData.edges e = none) ∧
       (∀ (e : String) (r : EdgeRec), alookup g0.edges e = some r →
         alookup (dropCore true acc (ks.map DropInput.key)).1.graphData.edges e = none →
         (⟨some e, r.src, r.tgt, some r.attrs⟩ : SEdgeSer) ∈
           (dropCore true acc (ks.map DropInput.key)).2.2)) := by
  induction ks with
  | nil =>
    intro acc hsn hse hA hB hC hD
    exact ⟨hsn, hse, hA, hB, hC, hD⟩
  | cons k ks ih =>
    intro acc hsn hse hA hB hC hD
    rw [show (k :: ks).map DropInput.key = DropInput.key k :: ks.map DropInput.key from rfl]
    rw [show ∀ a, dropCore true a (DropInput.key k :: ks.map DropInput.key)
        = dropCore true (dropOne true a (DropInput.key k)) (ks.map DropInput.key)
        from fun a => rfl]
    cases hhit : acc.1.graphData.hasNode (DropInput.key k).keyOf
    · rw [dropOne_skip true acc (DropInput.key k) hhit]
      exact ih acc hsn hse hA hB hC hD
    · have hkey : (DropInput.key k).keyOf = k := rfl
      have hstr : (DropInput.key k).toStr = k := rfl
      have hgd := dropOne_hit_graphData true acc (DropInput.key k) hhit
      have hnh := dropOne_hit_nodH acc (DropInput.key k) hhit
      have heh := dropOne_hit_edgeH acc (DropInput.key k) hhit
      rw [hkey] at hgd hnh heh hhit
      -- the value stored at k in the current graph
      unfold Graph.hasNode at hhit
      obtain ⟨w, hw⟩ : ∃ w, alookup acc.1.graphData.nodes k = some w := by
        cases hl : alookup acc.1.graphData.nodes k
        · rw [hl] at hhit
          cases hhit
        · exact ⟨_, rfl⟩
      have hw0 : alookup g0.nodes k = some w := alookup_sublist hsn hnN k w hw
      have hgetn : acc.1.graphData.getNodeAttrs k = w := by
        unfold Graph.getNodeAttrs
        rw [hw]
        rfl
      have haccE : ((acc.1.graphData.edges.map Prod.fst)).Nodup :=
        List.Nodup.sublist (hse.map Prod.fst) hnE
      refine ih (dropOne true acc (DropInput.key k)) ?_ ?_ ?_ ?_ ?_ ?_
      · rw [hgd]
        exact (dropNode_nodes_sublist _ _).trans hsn
      · rw [hgd]
        exact (dropNode_edges_sublist _ _).trans hse
      · -- (A) for the extended node history
        rw [hnh, hgd]
        intro p hp
        rcases List.mem_append.mp hp with hold | hnew
        · obtain ⟨a, ha1, ha2, ha3⟩ := hA p hold
          exact ⟨a, ha1, ha2, alookup_none_of_sublist (dropNode_nodes_sublist _ _) _ ha3⟩
        · rcases List.mem_singleton.mp hnew with rfl
          refine ⟨w, by rw [hstr, hgetn], ?_, ?_⟩
          · rw [show (⟨(DropInput.key k).toStr,
              some (acc.1.graphData.getNodeAttrs k)⟩ : SNode).key = k from hstr ▸ rfl]
            exact hw0
          · rw [show (⟨(DropInput.key k).toStr,
              some (acc.1.graphData.getNodeAttrs k)⟩ : SNode).key = k from hstr ▸ rfl]
            exact dropNode_nodes_self _ _
      · -- (B) completeness of the node history
        rw [hnh, hgd]
        intro k' v hg0 habs
        by_cases hacck : alookup acc.1.graphData.nodes k' = none
        · exact List.mem_append_left _ (hB k' v hg0 hacck)
        · by_cases hkk : k' = k
          · subst hkk
            rw [hw0] at hg0
            have hv : v = w := (Option.some.inj hg0).symm
            refine List.mem_append_right _ ?_
            rw [List.mem_singleton, hstr, hgetn, hv]
          · rw [dropNode_nodes_other _ _ _ hkk] at habs
            exact absurd habs hacck
      · -- (C) the recorded edges hold the original data and are gone
        rw [heh, hgd]
        intro q hq
        rcases List.mem_append.mp hq with hold | hnew
        · obtain ⟨e, r, hq1, hq2, hq3⟩ := hC q hold
          exact ⟨e, r, hq1, hq2, alookup_none_of_sublist (dropNode_edges_sublist _ _) _ hq3⟩
        · obtain ⟨e, he, hfe⟩ := List.mem_map.mp hnew
          obtain ⟨r, hmem, hinc⟩ := (mem_incidentEdges_iff _ _ _).mp he
          have hlook : alookup acc.1.graphData.edges e = some r :=
            mem_alookup_of_nodupkeys _ _ _ haccE hmem
          obtain ⟨hsrc, htgt, hattr⟩ := edge_getters_of_lookup _ _ _ hlook
          refine ⟨e, r, ?_, alookup_sublist hse hnE e r hlook, ?_⟩
          · rw [← hfe, hsrc, htgt, hattr]
          · exact dropNode_lookup_none_of_incident _ _ _ _ haccE hlook hinc
      · -- (D) completeness of the edge history
        rw [heh, hgd]
        intro e r hg0 habs
        by_cases hacce : alookup acc.1.graphData.edges e = none
        · exact List.mem_append_left _ (hD e r hg0 hacce)
        · obtain ⟨r2, hr2⟩ : ∃ r2, alookup acc.1.graphData.edges e = some r2 := by
            cases hl : alookup acc.1.graphData.edges e
            · exact absurd hl hacce
            · exact ⟨_, rfl⟩
          have hr2g0 : alookup g0.edges e = some r2 := alookup_sublist hse hnE e r2 hr2
          rw [hg0] at hr2g0
          have hrr : r2 = r := (Option.some.inj hr2g0).symm
          subst hrr
          have hinc : Graph.incident r2 k = true := by
            cases hi : Graph.incident r2 k
            · exfalso
              have hsurv : (e, r2) ∈ (acc.1.graphData.dropNode k).edges := by
                refine List.mem_filter.mpr ⟨alookup_mem _ _ _ hr2, ?_⟩
                rw [hi]
                rfl
              rw [alookup_eq_none_iff] at habs
              exact habs (List.mem_map.mpr ⟨(e, r2), hsurv, rfl⟩)
            · rfl
          obtain ⟨hsrc, htgt, hattr⟩ := edge_getters_of_lookup _ _ _ hr2
          refine List.mem_append_right _ ?_
          refine List.mem_map.mpr ⟨e, ?_, ?_⟩
          · exact (mem_incidentEdges_iff _ _ _).mpr ⟨r2, alookup_mem _ _ _ hr2, hinc⟩
          · rw [hsrc, htgt, hattr]

/-! ## mergeNodes and mergeEdges loop lemmas -/

theorem mergeNodesCore_cons (hOn : Bool) (g : Graph) (ex : List SNode) (n : SNode)
    (rest : List SNode) :
    mergeNodesCore hOn g ex (n :: rest) =
      mergeNodesCore hOn (g.mergeNode n.key (n.attrs.getD emptyNodeAttrs))
        (if hOn && g.hasNode n.key then ex ++ [⟨n.key, some (g.getNodeAttrs n.key)⟩] else ex)
        rest := rfl

theorem mergeNodesCore_edges (hOn : Bool) (ns : List SNode) :
    ∀ g ex, ((mergeNodesCore hOn g ex ns).1).edges = g.edges := by
  induction ns with
  | nil => intro g ex; rfl
  | cons n rest ih =>
    intro g ex
    rw [mergeNodesCore_cons, ih, mergeNode_edges]

theorem mergeNodesCore_hOff_ex (ns : List SNode) :
    ∀ g ex, (mergeNodesCore false g ex ns).2 = ex := by
  induction ns with
  | nil => intro g ex; rfl
  | cons n rest ih =>
    intro g ex
    rw [mergeNodesCore_cons]
    exact ih _ _

theorem mergeNodesCore_persists (ns : List SNode) :
    ∀ (g : Graph) (ex : List SNode) (k : String) (v : NodeAttrs),
      (alookup g.nodes k = none ∨ alookup g.nodes k = some v) →
      (∀ p ∈ ns, p.key = k → p.attrs.getD emptyNodeAttrs = v) →
      (alookup g.nodes k = some v ∨ ∃ p ∈ ns, p.key = k) →
      alookup ((mergeNodesCore false g ex ns).1).nodes k = some v := by
  induction ns with
  | nil =>
    intro g ex k v hval hcomp hhit
    rcases hhit with h0 | ⟨p, hp, _⟩
    · exact h0
    · cases hp
  | cons n rest ih =>
    intro g ex k v hval hcomp hhit
    rw [mergeNodesCore_cons]
    by_cases hk : n.key = k
    · subst hk
      have hv : n.attrs.getD emptyNodeAttrs = v := hcomp n (List.mem_cons_self _ _) rfl
      have hg2 : alookup (g.mergeNode n.key (n.attrs.getD emptyNodeAttrs)).nodes n.key
          = some v := by
        rcases hval with h0 | h0
        · rw [mergeNode_lookup_absent _ _ _ h0, hv]
        · rw [mergeNode_lookup_present _ _ _ _ h0, hv, mergeNodeAttrs_self]
      exact ih _ _ _ _ (Or.inr hg2)
        (fun p hp => hcomp p (List.mem_cons_of_mem _ hp)) (Or.inl hg2)
    · have hne : k ≠ n.key := fun he => hk he.symm
      have hg2 := mergeNode_lookup_other g n.key (n.attrs.getD emptyNodeAttrs) k hne
      apply ih _ _ _ v
      · rw [hg2]
        exact hval
      · exact fun p hp => hcomp p (List.mem_cons_of_mem _ hp)
      · rcases hhit with h0 | ⟨p, hp, hpk⟩
        · left
          rw [hg2]
          exact h0
        · rcases List.mem_cons.mp hp with heq | hm
          · exact absurd (heq ▸ hpk) hk
          · right
            exact ⟨p, hm, hpk⟩

theorem mergeNodesCore_lookup_other (hOn : Bool) (ns : List SNode) :
    ∀ g ex (k : String), (∀ p ∈ ns, p.key ≠ k) →
      alookup ((mergeNodesCore hOn g ex ns).1).nodes k = alookup g.nodes k := by
  induction ns with
  | nil => intro g ex k _; rfl
  | cons n rest ih =>
    intro g ex k hk
    rw [mergeNodesCore_cons, ih _ _ _ (fun p hp => hk p (List.mem_cons_of_mem _ hp))]
    exact mergeNode_lookup_other _ _ _ _
      (fun he => hk n (List.mem_cons_self _ _) he.symm)

theorem mergeNode_isSome_mono (g : Graph) (k : String) (a : NodeAttrs) (k' : String)
    (h : (alookup g.nodes k').isSome = true) :
    (alookup (g.mergeNode k a).nodes k').isSome = true := by
  by_cases hk : k' = k
  · subst hk
    exact mergeNode_isSome_self _ _ _
  · rw [mergeNode_lookup_other _ _ _ _ hk]
    exact h

theorem mergeNodesCore_isSome_mono (hOn : Bool) (ns : List SNode) :
    ∀ g ex (k : String), (alookup g.nodes k).isSome = true →
      (alookup ((mergeNodesCore hOn g ex ns).1).nodes k).isSome = true := by
  induction ns with
  | nil => intro g ex k h; exact h
  | cons n rest ih =>
    intro g ex k h
    rw [mergeNodesCore_cons]
    exact ih _ _ _ (mergeNode_isSome_mono _ _ _ _ h)

theorem mergeNodesCore_mem_isSome (hOn : Bool) (ns : List SNode) :
    ∀ g ex (q : SNode), q ∈ ns →
      (alookup ((mergeNodesCore hOn g ex ns).1).nodes q.key).isSome = true := by
  induction ns with
  | nil => intro g ex q hq; cases hq
  | cons n rest ih =>
    intro g ex q hq
    rcases List.mem_cons.mp hq with heq | hm
    · subst heq
      rw [mergeNodesCore_cons]
      exact mergeNodesCore_isSome_mono _ _ _ _ _ (mergeNode_isSome_self _ _ _)
    · rw [mergeNodesCore_cons]
      exact ih _ _ _ hm

theorem mergeEdgesCore_cons (hOn : Bool) (g : Graph) (ex : List SEdgeSer) (q : SEdgeSer)
    (rest : List SEdgeSer) :
    mergeEdgesCore hOn g ex (q :: rest) =
      mergeEdgesCore hOn
        (match q.key with
          | some k => g.mergeEdgeWithKey k q.src q.tgt q.attrs
          | none => g.mergeEdge q.src q.tgt q.attrs)
        (if hOn && g.hasEdgeBetween q.src q.tgt then
          ex ++ [⟨q.key, q.src, q.tgt, q.key.map (fun k => g.getEdgeAttrs k)⟩] else ex)
        rest := rfl

theorem mergeEdgesCore_persists (es : List SEdgeSer) :
    ∀ (g : Graph) (ex : List SEdgeSer) (e : String) (r : EdgeRec),
      (∀ q ∈ es, q.key.isSome = true) →
      (alookup g.edges e = none ∨ alookup g.edges e = some r) →
      (∀ q ∈ es, q.key = some e → q = (⟨some e, r.src, r.tgt, some r.attrs⟩ : SEdgeSer)) →
      (alookup g.edges e = some r ∨ ∃ q ∈ es, q.key = some e) →
      alookup ((mergeEdgesCore false g ex es).1).edges e = some r := by
  induction es with
  | nil =>
    intro g ex e r _ hval hcomp hhit
    rcases hhit with h0 | ⟨q, hq, _⟩
    · exact h0
    · cases hq
  | cons q rest ih =>
    intro g ex e r hall hval hcomp hhit
    obtain ⟨k', hk'⟩ : ∃ k', q.key = some k' := by
      have hq1 := hall q (List.mem_cons_self _ _)
      cases hqk : q.key
      · rw [hqk] at hq1
        exact Bool.noConfusion hq1
      · exact ⟨_, rfl⟩
    rw [mergeEdgesCore_cons, hk']
    by_cases he : k' = e
    · subst he
      have hq2 := hcomp q (List.mem_cons_self _ _) hk'
      have hsrc : q.src = r.src := by rw [hq2]
      have htgt : q.tgt = r.tgt := by rw [hq2]
      have hattr : q.attrs = some r.attrs := by rw [hq2]
      have hg2 : alookup (g.mergeEdgeWithKey k' q.src q.tgt q.attrs).edges k' = some r := by
        rcases hval with h0 | h0
        · rw [mergeEdgeWithKey_lookup_absent _ _ _ _ _ h0, hsrc, htgt, hattr]
          rfl
        · rw [mergeEdgeWithKey_lookup_present _ _ _ _ _ _ h0, hattr]
          rw [show (some r.attrs).getD emptyEdgeAttrs = r.attrs from rfl, mergeEdgeAttrs_self]
      exact ih _ _ _ _ (fun p hp => hall p (List.mem_cons_of_mem _ hp)) (Or.inr hg2)
        (fun p hp => hcomp p (List.mem_cons_of_mem _ hp)) (Or.inl hg2)
    · have hne : e ≠ k' := fun h2 => he h2.symm
      have hg2 := mergeEdgeWithKey_lookup_other g k' q.src q.tgt q.attrs e hne
      apply ih _ _ _ r (fun p hp => hall p (List.mem_cons_of_mem _ hp))
      · rw [hg2]
        exact hval
      · exact fun p hp => hcomp p (List.mem_cons_of_mem _ hp)
      · rcases hhit with h0 | ⟨p, hp, hpk⟩
        · left
          rw [hg2]
          exact h0
        · rcases List.mem_cons.mp hp with heq | hm
          · exfalso
            rw [heq, hk'] at hpk
            exact he (Option.some.inj hpk)
          · right
            exact ⟨p, hm, hpk⟩

theorem mergeEdgesCore_nodes_mono (es : List SEdgeSer) :
    ∀ (g : Graph) (ex : List SEdgeSer) (k : String) (v : NodeAttrs),
      (∀ q ∈ es, q.key.isSome = true) →
      alookup g.nodes k = some v →
      alookup ((mergeEdgesCore false g ex es).1).nodes k = some v := by
  induction es with
  | nil => intro g ex k v _ h; exact h
  | cons q rest ih =>
    intro g ex k v hall h
    obtain ⟨k', hk'⟩ : ∃ k', q.key = some k' := by
      have hq1 := hall q (List.mem_cons_self _ _)
      cases hqk : q.key
      · rw [hqk] at hq1
        exact Bool.noConfusion hq1
      · exact ⟨_, rfl⟩
    rw [mergeEdgesCore_cons, hk']
    exact ih _ _ _ _ (fun p hp => hall p (List.mem_cons_of_mem _ hp))
      (mergeEdgeWithKey_nodes_mono _ _ _ _ _ _ _ h)

theorem foldl_setEdgeHidden_nodes (es : List String) :
    ∀ g : Graph, (es.foldl (fun g2 e => g2.setEdgeHidden e false) g).nodes = g.nodes := by
  induction es with
  | nil => intro g; rfl
  | cons e rest ih =>
    intro g
    rw [List.foldl_cons, ih]
    rfl

theorem unhideAll_nodes (ns : List SNode) :
    ∀ g : Graph, (unhideAll g ns).nodes = g.nodes := by
  induction ns with
  | nil => intro g; rfl
  | cons n rest ih =>
    intro g
    rw [show unhideAll g (n :: rest) = unhideAll (unhideEdgesOf g n.key) rest from rfl]
    rw [ih]
    unfold unhideEdgesOf
    exact foldl_setEdgeHidden_nodes _ _

/-! ## Equations of the public mutators under fixed flags -/

theorem mergeNodes_hOff (ns : List SNode) (s : WG) (hne : ns ≠ []) :
    mergeNodes ns false s =
      (true, { s with graphData := unhideAll (mergeNodesCore false s.graphData [] ns).1 ns }) := by
  cases ns with
  | nil => exact absurd rfl hne
  | cons n rest =>
    unfold mergeNodes
    rw [if_neg (by simp)]
    dsimp only
    rw [Bool.and_false]
    rfl

theorem mergeEdges_hOff (es : List SEdgeSer) (s : WG) (hne : es ≠ []) :
    mergeEdges es false s =
      (true, { s with graphData := (mergeEdgesCore false s.graphData [] es).1 }) := by
  cases es with
  | nil => exact absurd rfl hne
  | cons q rest =>
    unfold mergeEdges
    rw [if_neg (by simp)]
    dsimp only
    rw [Bool.and_false]
    rfl

theorem dropNodes_hOn (inputs : List DropInput) (s : WG) (hh : s.isHistoryEnabled = true) :
    dropNodes inputs true s =
      (true, { (dropCore true (s, [], []) inputs).1 with
        history := (dropCore true (s, [], []) inputs).1.history.map (fun h =>
          addAction h
            { emptyPayload with
              nodes := some (dropCore true (s, [], []) inputs).2.1,
              edges := some (dropCore true (s, [], []) inputs).2.2 }
            .dropNode emptyPayload) }) := by
  unfold dropNodes
  rw [hh]
  rfl

theorem dropNodes_hOff (inputs : List DropInput) (s : WG) :
    dropNodes inputs false s = (true, (dropCore false (s, [], []) inputs).1) := by
  unfold dropNodes
  rw [Bool.and_false]
  rfl

theorem mergeNodes_hOn (ns : List SNode) (s : WG) (hne : ns ≠ [])
    (hh : s.isHistoryEnabled = true) :
    mergeNodes ns true s =
      (true, { s with
               graphData := (mergeNodesCore true s.graphData [] ns).1,
               history := s.history.map (fun h =>
                 addAction h
                   { emptyPayload with nodes := some (mergeNodesCore true s.graphData [] ns).2 }
                   .updateOrAddNode { emptyPayload with nodes := some ns }) }) := by
  cases ns with
  | nil => exact absurd rfl hne
  | cons n rest =>
    unfold mergeNodes
    rw [if_neg (by simp)]
    dsimp only
    rw [hh]
    rfl

/-! ## C1: dropNodes followed by undo restores nodes and incident edges -/

/-- C1: for a well-keyed graph (distinct node keys and distinct edge
keys), with rendering active, history enabled and a history log present,
`dropNodes` on a list of node keys followed by `undo` succeeds and
restores every dropped node and every edge that was incident to a
dropped node with exactly the attributes each had before the drop,
the edge `hidden` flag included. -/
theorem dropNodes_undo_restores (s0 : WG) (keys : List String) (k e : String)
    (v : NodeAttrs) (r : EdgeRec)
    (hnN : (s0.graphData.nodes.map Prod.fst).Nodup)
    (hnE : (s0.graphData.edges.map Prod.fst).Nodup)
    (hact : s0.appState = AppState.active)
    (hrend : s0.renderer.isSome = true)
    (hhist : s0.isHistoryEnabled = true)
    (hlog : s0.history.isSome = true)
    (hk : k ∈ keys) (hkv : alookup s0.graphData.nodes k = some v)
    (he : alookup s0.graphData.edges e = some r)
    (hinc : ∃ k2 ∈ keys, (alookup s0.graphData.nodes k2).isSome = true ∧
      Graph.incident r k2 = true) :
    undo (dropNodes (keys.map DropInput.key) true s0).2
      = .ok (true, undoState (dropNodes (keys.map DropInput.key) true s0).2) ∧
    alookup (undoState (dropNodes (keys.map DropInput.key) true s0).2).graphData.nodes k
      = some v ∧
    alookup (undoState (dropNodes (keys.map DropInput.key) true s0).2).graphData.edges e
      = some r := by
  obtain ⟨h0, hh0⟩ : ∃ h0, s0.history = some h0 := by
    cases hl : s0.history
    · rw [hl] at hlog
      exact Bool.noConfusion hlog
    · exact ⟨_, rfl⟩
  have hinputs : ∀ kk ∈ keys, DropInput.key kk ∈ keys.map DropInput.key :=
    fun kk hkk => List.mem_map_of_mem _ hkk
  -- the recording invariant at the initial accumulator
  have hinv := dropCore_record_invariant s0.graphData hnN hnE keys (s0, [], [])
    (List.Sublist.refl _) (List.Sublist.refl _)
    (fun p hp => absurd hp (List.not_mem_nil _))
    (fun k' v' hg hn => absurd hn (by rw [hg]; exact fun hcon => Option.noConfusion hcon))
    (fun q hq => absurd hq (List.not_mem_nil _))
    (fun e' r' hg hn => absurd hn (by rw [hg]; exact fun hcon => Option.noConfusion hcon))
  obtain ⟨hSubN, hSubE, hA, hB, hC, hD⟩ := hinv
  -- names for the fold result
  set P := dropCore true (s0, [], []) (keys.map DropInput.key) with hPdef
  obtain ⟨gS, hNS, hES, bS, nhS, ehS, hshape⟩ :=
    dropCore_shape true (keys.map DropInput.key) (s0, [], [])
  rw [← hPdef] at hshape
  -- every listed key that exists is dropped by the loop
  have hdropped : ∀ kk ∈ keys, alookup P.1.graphData.nodes kk = none := by
    intro kk hkk
    exact dropCore_lookup_dropped true (keys.map DropInput.key) (s0, [], []) kk
      ⟨DropInput.key kk, hinputs kk hkk, rfl⟩
  -- no surviving edge is incident to a dropped existing key
  have hnoinc : ∀ kk ∈ keys, (alookup s0.graphData.nodes kk).isSome = true →
      ∀ p ∈ P.1.graphData.edges, Graph.incident p.2 kk = false := by
    intro kk hkk hsome
    refine dropCore_dropped_no_incident true (keys.map DropInput.key) (s0, [], []) kk
      (Or.inl ?_) (hdropped kk hkk)
    cases hl : alookup s0.graphData.nodes kk
    · rw [hl] at hsome
      exact Bool.noConfusion hsome
    · exact fun hcon => Option.noConfusion hcon
  -- the dropped edge e is gone after the loop
  have heGone : alookup P.1.graphData.edges e = none := by
    obtain ⟨k2, hk2, hk2some, hk2inc⟩ := hinc
    cases hl : alookup P.1.graphData.edges e
    · rfl
    · exfalso
      rename_i r2
      have hmem2 : (e, r2) ∈ P.1.graphData.edges := alookup_mem _ _ _ hl
      have hr2 : r2 = r :=
        mem_value_unique _ hnE (hSubE.subset hmem2) (alookup_mem _ _ _ he)
      have := hnoinc k2 hk2 hk2some (e, r2) hmem2
      rw [hr2, hk2inc] at this
      exact Bool.noConfusion this
  -- the node and edge history payloads contain the original data
  have hkEntry : (⟨k, some v⟩ : SNode) ∈ P.2.1 := hB k v hkv (hdropped k hk)
  have heEntry : (⟨some e, r.src, r.tgt, some r.attrs⟩ : SEdgeSer) ∈ P.2.2 :=
    hD e r he heGone
  -- the state right after dropNodes
  have hDN := dropNodes_hOn (keys.map DropInput.key) s0 hhist
  rw [← hPdef] at hDN
  rw [show (dropNodes (keys.map DropInput.key) true s0).2
      = { P.1 with history := P.1.history.map (fun h =>
          addAction h
            { emptyPayload with nodes := some P.2.1, edges := some P.2.2 }
            .dropNode emptyPayload) } from by rw [hDN]]
  set pay : Payload := { emptyPayload with nodes := some P.2.1, edges := some P.2.2 }
    with hpaydef
  set S1 : WG := { P.1 with history := P.1.history.map (fun h =>
      addAction h pay .dropNode emptyPayload) } with hS1def
  -- field bookkeeping for the undo guards
  have hS1hist : S1.history = some (addAction h0 pay .dropNode emptyPayload) := by
    rw [hS1def]
    show P.1.history.map (fun h => addAction h pay .dropNode emptyPayload) = _
    rw [hshape]
    show s0.history.map (fun h => addAction h pay .dropNode emptyPayload) = _
    rw [hh0]
    rfl
  have hS1graph : S1.graphData = P.1.graphData := by
    rw [hS1def]
  have hS1hEn : S1.isHistoryEnabled = true := by
    rw [hS1def, hshape]
    exact hhist
  have hS1cond : (S1.renderer.isNone || !S1.isRenderingActive) = false := by
    have h1 : S1.renderer = s0.renderer := by
      rw [hS1def, hshape]
    have h2 : S1.appState = s0.appState := by
      rw [hS1def, hshape]
    obtain ⟨rr, hrr⟩ : ∃ rr, s0.renderer = some rr := by
      cases hl : s0.renderer
      · rw [hl] at hrend
        exact Bool.noConfusion hrend
      · exact ⟨_, rfl⟩
    rw [Bool.or_eq_false_iff]
    constructor
    · rw [h1, hrr]
      rfl
    · unfold isRenderingActive
      rw [h2, hact]
      rfl
  -- the latest action is the freshly recorded drop action
  have hbind : S1.history.bind getLatestAction
      = some ⟨pay, .dropNode, emptyPayload, false⟩ := by
    rw [hS1hist]
    rfl
  -- evaluate the undo step
  have hnodHne : P.2.1 ≠ [] := List.ne_nil_of_mem hkEntry
  have hedgHne : P.2.2 ≠ [] := List.ne_nil_of_mem heEntry
  have hMN := mergeNodes_hOff P.2.1 S1 hnodHne
  set g2 : Graph := (mergeNodesCore false S1.graphData [] P.2.1).1 with hg2def
  -- the replay un-hide is a no-op: no surviving edge touches a restored key
  have hg2edges : g2.edges = P.1.graphData.edges := by
    rw [hg2def, mergeNodesCore_edges, hS1graph]
  have hunhide : unhideAll g2 P.2.1 = g2 := by
    refine unhideAll_id P.2.1 g2 ?_
    intro n hn
    obtain ⟨a, ha1, ha2, ha3⟩ := hA n hn
    rw [incidentEdges_nil_iff]
    intro p hp
    rw [hg2edges] at hp
    refine dropCore_dropped_no_incident true (keys.map DropInput.key) (s0, [], []) n.key
      (Or.inl ?_) ha3 p hp
    rw [ha2]
    exact fun hcon => Option.noConfusion hcon
  have hs'eq : (mergeNodes P.2.1 false S1).2
      = { S1 with graphData := g2 } := by
    rw [hMN]
    show ({ S1 with graphData := unhideAll (mergeNodesCore false S1.graphData [] P.2.1).1 P.2.1 } : WG)
      = { S1 with graphData := g2 }
    rw [← hg2def, hunhide]
  -- the restored node
  have hg2node : alookup g2.nodes k = some v := by
    rw [hg2def]
    refine mergeNodesCore_persists P.2.1 S1.graphData [] k v ?_ ?_ ?_
    · rw [hS1graph]
      exact Or.inl (hdropped k hk)
    · intro p hp hpk
      obtain ⟨a, ha1, ha2, ha3⟩ := hA p hp
      rw [hpk] at ha2
      rw [hkv] at ha2
      rw [ha1]
      exact (Option.some.inj ha2).symm
    · exact Or.inr ⟨⟨k, some v⟩, hkEntry, rfl⟩
  -- all recorded edges carry keys
  have hall : ∀ q ∈ P.2.2, q.key.isSome = true := by
    intro q hq
    obtain ⟨e', r', hq1, _, _⟩ := hC q hq
    rw [hq1]
    rfl
  have hME := mergeEdges_hOff P.2.2 { S1 with graphData := g2 } hedgHne
  set g3 : Graph :=
    (mergeEdgesCore false ({ S1 with graphData := g2 } : WG).graphData [] P.2.2).1 with hg3def
  have hs2eq : (mergeEdges P.2.2 false { S1 with graphData := g2 }).2
      = { S1 with graphData := g3 } := by
    rw [hME]
  -- the restored edge
  have hg3edge : alookup g3.edges e = some r := by
    rw [hg3def]
    refine mergeEdgesCore_persists P.2.2 _ [] e r hall ?_ ?_ ?_
    · rw [show ({ S1 with graphData := g2 } : WG).graphData = g2 from rfl, hg2edges]
      exact Or.inl heGone
    · intro q hq hqk
      obtain ⟨e', r', hq1, hq2, hq3⟩ := hC q hq
      rw [hq1] at hqk
      have he' : e' = e := Option.some.inj hqk
      rw [he'] at hq2
      rw [he] at hq2
      have hr' : r' = r := (Option.some.inj hq2).symm
      rw [hq1, he', hr']
    · exact Or.inr ⟨⟨some e, r.src, r.tgt, some r.attrs⟩, heEntry, rfl⟩
  -- node lookups survive the edge restore
  have hg3node : alookup g3.nodes k = some v := by
    rw [hg3def]
    exact mergeEdgesCore_nodes_mono P.2.2 _ [] k v hall hg2node
  -- assemble the undo call
  have hundo : undo S1 = .ok (true,
      { S1 with graphData := g3,
                history := (({ S1 with graphData := g3 } : WG).history.map
                  markLatestActionAsReverted) }) := by
    rw [undo_eq_of_active S1 hS1cond hS1hEn, hbind]
    show (match undoStep S1 ⟨pay, .dropNode, emptyPayload, false⟩ with
      | none => Except.ok (false, S1)
      | some s2 =>
        Except.ok (true, { s2 with history := s2.history.map markLatestActionAsReverted })) = _
    have hstep : undoStep S1 ⟨pay, .dropNode, emptyPayload, false⟩
        = some ({ S1 with graphData := g3 } : WG) := by
      unfold undoStep
      rw [show (⟨pay, .dropNode, emptyPayload, false⟩ : HistoryAction).actionType
        = ActionType.dropNode from rfl]
      rw [show (⟨pay, .dropNode, emptyPayload, false⟩ : HistoryAction).oldData = pay from rfl]
      rw [hpaydef]
      show some (mergeEdges P.2.2 false (mergeNodes P.2.1 false S1).2).2 = _
      rw [hs'eq, hs2eq]
    rw [hstep]
  refine ⟨?_, ?_, ?_⟩
  · rw [hundo]
    unfold undoState
    rw [hundo]
  · unfold undoState
    rw [hundo]
    exact hg3node
  · unfold undoState
    rw [hundo]
    exact hg3edge

/-- Witness for C1: on the concrete two-node rendered state `c1State`,
dropping n1 and undoing restores n1 and the hidden edge e1 exactly. -/
theorem dropNodes_undo_restores_witness :
    c1State.isHistoryEnabled = true ∧
    alookup c1State.graphData.nodes "n1" = some emptyNodeAttrs ∧
    undo (dropNodes (["n1"].map DropInput.key) true c1State).2
      = .ok (true, undoState (dropNodes (["n1"].map DropInput.key) true c1State).2) ∧
    alookup (undoState
        (dropNodes (["n1"].map DropInput.key) true c1State).2).graphData.nodes "n1"
      = some emptyNodeAttrs ∧
    alookup (undoState
        (dropNodes (["n1"].map DropInput.key) true c1State).2).graphData.edges "e1"
      = some ⟨"n1", "n2", { emptyEdgeAttrs with hidden := some true, weight := some 3 }⟩ := by
  have h := dropNodes_undo_restores c1State ["n1"] "n1" "e1" emptyNodeAttrs
    ⟨"n1", "n2", { emptyEdgeAttrs with hidden := some true, weight := some 3 }⟩
    (by decide) (by decide) rfl rfl rfl rfl (by decide) (by decide) (by decide)
    ⟨"n1", by decide, by decide, by decide⟩
  exact ⟨rfl, by decide, h.1, h.2.1, h.2.2⟩

/-! ## C2: mergeNodes followed by undo, round-trip of the node map -/

theorem mergeNodesCore_ex_append (ns : List SNode) :
    ∀ (g : Graph) (ex : List SNode),
      (mergeNodesCore true g ex ns).2 = ex ++ (mergeNodesCore true g [] ns).2 := by
  induction ns with
  | nil =>
    intro g ex
    exact (List.append_nil ex).symm
  | cons n rest ih =>
    intro g ex
    rw [mergeNodesCore_cons, mergeNodesCore_cons]
    by_cases hc : (true && g.hasNode n.key) = true
    · rw [if_pos hc, if_pos hc]
      conv_rhs => rw [ih]
      rw [ih]
      simp [List.append_assoc]
    · rw [if_neg hc, if_neg hc, ih]

/-- What the `mergeNodes` loop records for undo when the input keys are
pairwise distinct: exactly the pre-call attributes of those input nodes
that already existed. -/
theorem mergeNodesCore_ex_char (ns : List SNode) :
    ∀ g : Graph, (ns.map SNode.key).Nodup →
      (∀ p ∈ (mergeNodesCore true g [] ns).2,
        p.key ∈ ns.map SNode.key ∧ p.attrs = some (g.getNodeAttrs p.key) ∧
        g.hasNode p.key = true) ∧
      (∀ q ∈ ns, g.hasNode q.key = true →
        (⟨q.key, some (g.getNodeAttrs q.key)⟩ : SNode) ∈ (mergeNodesCore true g [] ns).2) := by
  induction ns with
  | nil =>
    intro g _
    exact ⟨fun p hp => absurd hp (List.not_mem_nil _),
      fun q hq _ => absurd hq (List.not_mem_nil _)⟩
  | cons n rest ih =>
    intro g hnd
    rw [List.map_cons] at hnd
    have hndp := List.nodup_cons.mp hnd
    have hnmem : n.key ∉ rest.map SNode.key := hndp.1
    have hndr : (rest.map SNode.key).Nodup := hndp.2
    have hiter : (mergeNodesCore true g [] (n :: rest)).2
        = (if g.hasNode n.key = true then [⟨n.key, some (g.getNodeAttrs n.key)⟩] else [])
          ++ (mergeNodesCore true (g.mergeNode n.key (n.attrs.getD emptyNodeAttrs)) [] rest).2 := by
      rw [mergeNodesCore_cons, Bool.true_and, mergeNodesCore_ex_append rest]
      by_cases hc : g.hasNode n.key = true
      · rw [if_pos hc, if_pos hc, List.nil_append]
      · rw [if_neg hc, if_neg hc]
    set g' := g.mergeNode n.key (n.attrs.getD emptyNodeAttrs) with hg'
    have hlook : ∀ k, k ≠ n.key → alookup g'.nodes k = alookup g.nodes k :=
      fun k hk => mergeNode_lookup_other g n.key _ k hk
    have hattr : ∀ k, k ≠ n.key → g'.getNodeAttrs k = g.getNodeAttrs k := by
      intro k hk
      unfold Graph.getNodeAttrs
      rw [hlook k hk]
    have hhas : ∀ k, k ≠ n.key → g'.hasNode k = g.hasNode k := by
      intro k hk
      unfold Graph.hasNode
      rw [hlook k hk]
    obtain ⟨ih1, ih2⟩ := ih g' hndr
    constructor
    · intro p hp
      rw [hiter] at hp
      rcases List.mem_append.mp hp with h1 | h2
      · by_cases hc : g.hasNode n.key = true
        · rw [if_pos hc] at h1
          have hpe : p = ⟨n.key, some (g.getNodeAttrs n.key)⟩ := List.mem_singleton.mp h1
          rw [hpe]
          exact ⟨List.mem_cons_self _ _, rfl, hc⟩
        · rw [if_neg hc] at h1
          exact absurd h1 (List.not_mem_nil _)
      · obtain ⟨hk1, hk2, hk3⟩ := ih1 p h2
        have hne : p.key ≠ n.key := by
          intro heq
          rw [heq] at hk1
          exact hnmem hk1
        refine ⟨List.mem_cons_of_mem _ hk1, ?_, ?_⟩
        · rw [hk2, hattr p.key hne]
        · rw [← hhas p.key hne]
          exact hk3
    · intro q hq hqhas
      rw [hiter]
      rcases List.mem_cons.mp hq with rfl | hmem
      · rw [if_pos hqhas]
        exact List.mem_append_left _ (List.mem_singleton.mpr rfl)
      · have hqne : q.key ≠ n.key := by
          intro heq
          rw [← heq] at hnmem
          exact hnmem (List.mem_map_of_mem _ hmem)
        have hqhas' : g'.hasNode q.key = true := by
          rw [hhas q.key hqne]
          exact hqhas
        have := ih2 q hmem hqhas'
        rw [hattr q.key hqne] at this
        exact List.mem_append_right _ this

/-- C2 (amended: the input node keys must be pairwise distinct): with
rendering active, history enabled and a history log present, calling
`mergeNodes` on a non-empty list of nodes with pairwise-distinct keys
and then `undo` succeeds and leaves every node-map lookup exactly as it
was before the `mergeNodes` call. With a repeated key the round-trip
fails (see the counterexample). -/
theorem mergeNodes_undo_roundtrip (s0 : WG) (nodes : List SNode) (k : String)
    (hnd : (nodes.map SNode.key).Nodup)
    (hne : nodes ≠ [])
    (hact : s0.appState = AppState.active)
    (hrend : s0.renderer.isSome = true)
    (hhist : s0.isHistoryEnabled = true)
    (hlog : s0.history.isSome = true) :
    undo (mergeNodes nodes true s0).2
      = .ok (true, undoState (mergeNodes nodes true s0).2) ∧
    alookup (undoState (mergeNodes nodes true s0).2).graphData.nodes k
      = alookup s0.graphData.nodes k := by
  obtain ⟨h0, hh0⟩ : ∃ h0, s0.history = some h0 := by
    cases hl : s0.history
    · rw [hl] at hlog
      exact Bool.noConfusion hlog
    · exact ⟨_, rfl⟩
  have hMN := mergeNodes_hOn nodes s0 hne hhist
  rw [show (mergeNodes nodes true s0).2
      = { s0 with
          graphData := (mergeNodesCore true s0.graphData [] nodes).1,
          history := s0.history.map (fun h =>
            addAction h
              { emptyPayload with nodes := some (mergeNodesCore true s0.graphData [] nodes).2 }
              .updateOrAddNode { emptyPayload with nodes := some nodes }) } from by rw [hMN]]
  set ex : List SNode := (mergeNodesCore true s0.graphData [] nodes).2 with hexdef
  set payOld : Payload := { emptyPayload with nodes := some ex } with hpOdef
  set payNew : Payload := { emptyPayload with nodes := some nodes } with hpNdef
  set S1 : WG := { s0 with
      graphData := (mergeNodesCore true s0.graphData [] nodes).1,
      history := s0.history.map (fun h =>
        addAction h payOld .updateOrAddNode payNew) } with hS1def
  obtain ⟨hch1, hch2⟩ := mergeNodesCore_ex_char nodes s0.graphData hnd
  -- the undo guards
  have hS1hist : S1.history = some (addAction h0 payOld .updateOrAddNode payNew) := by
    rw [hS1def]
    show s0.history.map (fun h => addAction h payOld .updateOrAddNode payNew) = _
    rw [hh0]
    rfl
  have hS1hEn : S1.isHistoryEnabled = true := by
    rw [hS1def]
    exact hhist
  have hS1cond : (S1.renderer.isNone || !S1.isRenderingActive) = false := by
    obtain ⟨rr, hrr⟩ : ∃ rr, s0.renderer = some rr := by
      cases hl : s0.renderer
      · rw [hl] at hrend
        exact Bool.noConfusion hrend
      · exact ⟨_, rfl⟩
    rw [Bool.or_eq_false_iff]
    constructor
    · rw [hS1def]
      show s0.renderer.isNone = false
      rw [hrr]
      rfl
    · unfold isRenderingActive
      rw [hS1def]
      show (!match s0.appState with
        | AppState.active => true
        | AppState.inactive => false) = false
      rw [hact]
      rfl
  have hbind : S1.history.bind getLatestAction
      = some ⟨payOld, .updateOrAddNode, payNew, false⟩ := by
    rw [hS1hist]
    rfl
  -- the replayed drop of the merged nodes
  have hDN := dropNodes_hOff (nodes.map DropInput.node) S1
  set Q := dropCore false (S1, [], []) (nodes.map DropInput.node) with hQdef
  have hs2 : (dropNodes (nodes.map DropInput.node) false S1).2 = Q.1 := by
    rw [hDN]
  have hs2other : ∀ kk, (∀ q ∈ nodes, q.key ≠ kk) →
      alookup Q.1.graphData.nodes kk = alookup s0.graphData.nodes kk := by
    intro kk hkk
    have hkeys : ∀ i ∈ nodes.map DropInput.node, i.keyOf ≠ kk := by
      intro i hi
      obtain ⟨q, hq, rfl⟩ := List.mem_map.mp hi
      exact hkk q hq
    rw [hQdef, dropCore_lookup_other false (nodes.map DropInput.node) (S1, [], []) kk hkeys]
    show alookup S1.graphData.nodes kk = _
    rw [hS1def]
    show alookup ((mergeNodesCore true s0.graphData [] nodes).1).nodes kk = _
    exact mergeNodesCore_lookup_other true nodes s0.graphData [] kk hkk
  have hs2dropped : ∀ kk, (∃ q ∈ nodes, q.key = kk) →
      alookup Q.1.graphData.nodes kk = none := by
    intro kk hq
    obtain ⟨q, hqm, hqk⟩ := hq
    rw [hQdef]
    exact dropCore_lookup_dropped false (nodes.map DropInput.node) (S1, [], []) kk
      ⟨DropInput.node q, List.mem_map_of_mem _ hqm, hqk⟩
  -- the replayed restore of the recorded attributes
  have hmain : ∀ kk, alookup ((mergeNodes ex false Q.1).2).graphData.nodes kk
      = alookup s0.graphData.nodes kk := by
    intro kk
    by_cases hin : ∃ q ∈ nodes, q.key = kk
    · have hdrop := hs2dropped kk hin
      obtain ⟨q, hq, hqk⟩ := hin
      cases hv : alookup s0.graphData.nodes kk with
      | none =>
        have hnok : ∀ p ∈ ex, p.key ≠ kk := by
          intro p hp hpk
          obtain ⟨_, _, hhasp⟩ := hch1 p hp
          rw [hpk] at hhasp
          unfold Graph.hasNode at hhasp
          rw [hv] at hhasp
          exact Bool.noConfusion hhasp
        by_cases hexnil : ex = []
        · rw [hexnil]
          rw [show (mergeNodes [] false Q.1).2 = Q.1 from rfl]
          exact hdrop
        · rw [mergeNodes_hOff ex Q.1 hexnil]
          show alookup (unhideAll (mergeNodesCore false Q.1.graphData [] ex).1 ex).nodes kk = _
          rw [unhideAll_nodes, mergeNodesCore_lookup_other false ex Q.1.graphData [] kk hnok]
          exact hdrop
      | some v =>
        have hhasq : s0.graphData.hasNode q.key = true := by
          unfold Graph.hasNode
          rw [hqk, hv]
          rfl
        have hmem := hch2 q hq hhasq
        have hexnil : ex ≠ [] := List.ne_nil_of_mem hmem
        rw [mergeNodes_hOff ex Q.1 hexnil]
        show alookup (unhideAll (mergeNodesCore false Q.1.graphData [] ex).1 ex).nodes kk = _
        rw [unhideAll_nodes]
        refine mergeNodesCore_persists ex Q.1.graphData [] kk v (Or.inl hdrop) ?_ ?_
        · intro p hp hpk
          obtain ⟨_, hattr, _⟩ := hch1 p hp
          rw [hattr]
          show s0.graphData.getNodeAttrs p.key = v
          rw [hpk]
          unfold Graph.getNodeAttrs
          rw [hv]
          rfl
        · exact Or.inr ⟨⟨q.key, some (s0.graphData.getNodeAttrs q.key)⟩, hmem, hqk⟩
    · push_neg at hin
      have hother := hs2other kk hin
      have hnok : ∀ p ∈ ex, p.key ≠ kk := by
        intro p hp hpk
        obtain ⟨hkmem, _, _⟩ := hch1 p hp
        rw [hpk] at hkmem
        obtain ⟨q, hq, hqk⟩ := List.mem_map.mp hkmem
        exact hin q hq hqk
      by_cases hexnil : ex = []
      · rw [hexnil]
        rw [show (mergeNodes [] false Q.1).2 = Q.1 from rfl]
        exact hother
      · rw [mergeNodes_hOff ex Q.1 hexnil]
        show alookup (unhideAll (mergeNodesCore false Q.1.graphData [] ex).1 ex).nodes kk = _
        rw [unhideAll_nodes, mergeNodesCore_lookup_other false ex Q.1.graphData [] kk hnok]
        exact hother
  -- assemble the undo call
  have hundo : undo S1 = .ok (true,
      { (mergeNodes ex false Q.1).2 with
        history := ((mergeNodes ex false Q.1).2).history.map markLatestActionAsReverted }) := by
    rw [undo_eq_of_active S1 hS1cond hS1hEn, hbind]
    show (match undoStep S1 ⟨payOld, .updateOrAddNode, payNew, false⟩ with
      | none => Except.ok (false, S1)
      | some s2 =>
        Except.ok (true, { s2 with history := s2.history.map markLatestActionAsReverted })) = _
    have hstep : undoStep S1 ⟨payOld, .updateOrAddNode, payNew, false⟩
        = some (mergeNodes ex false Q.1).2 := by
      show some (mergeNodes ex false (dropNodes (nodes.map DropInput.node) false S1).2).2 = _
      rw [hs2]
    rw [hstep]
  refine ⟨?_, ?_⟩
  · rw [hundo]
    unfold undoState
    rw [hundo]
  · unfold undoState
    rw [hundo]
    exact hmain k

/-- Witness for C2 at the concrete rendered state `c1State`: re-coloring
n1 and undoing restores its original (empty) attribute bag. -/
theorem mergeNodes_undo_roundtrip_witness :
    c1State.isHistoryEnabled = true ∧
    ([(⟨"n1", some { emptyNodeAttrs with color := some "blue" }⟩ : SNode)].map
      SNode.key).Nodup ∧
    undo (mergeNodes [⟨"n1", some { emptyNodeAttrs with color := some "blue" }⟩]
        true c1State).2
      = .ok (true, undoState (mergeNodes
          [⟨"n1", some { emptyNodeAttrs with color := some "blue" }⟩] true c1State).2) ∧
    alookup (undoState (mergeNodes
        [⟨"n1", some { emptyNodeAttrs with color := some "blue" }⟩]
        true c1State).2).graphData.nodes "n1"
      = alookup c1State.graphData.nodes "n1" := by
  have h := mergeNodes_undo_roundtrip c1State
    [⟨"n1", some { emptyNodeAttrs with color := some "blue" }⟩] "n1"
    (by decide) (by decide) rfl rfl rfl rfl
  exact ⟨rfl, by decide, h.1, h.2⟩

/-- C2 counterexample: with a repeated key in the input the round-trip
fails. Node "a" does not exist before the call, yet it survives
`mergeNodes` followed by `undo`: the loop records only the second
occurrence's pre-state (the node as created by the first occurrence),
so the undo replay re-creates the node it just dropped. -/
theorem duplicate_key_merge_breaks_roundtrip :
    alookup renderedWG.graphData.nodes "a" = none ∧
    (alookup (undoState (mergeNodes
        [⟨"a", some { emptyNodeAttrs with x := some 1 }⟩,
         ⟨"a", some { emptyNodeAttrs with y := some 2 }⟩]
        true renderedWG).2).graphData.nodes "a").isSome = true := by
  exact ⟨rfl, by decide⟩
